import Mathlib

/-!
Verification of the PDF post-processing optimizer (`src/pyplaner/optimize_pdf.py`).

The development shallowly embeds the optimizer's data model and its three
phases over an explicit object table:

* SHA-256 over byte lists (the content digest used by the code);
* a PDF document graph: indirect objects keyed by an (object number,
  generation number) identity, values being streams, dictionaries, arrays,
  names and scalars; inline (non-indirect) values all report the placeholder
  identity (0, 0);
* `_stream_content_bytes` (raw-bytes primary path, decoded fallback);
* `_deduplicate_images` (replacement-map construction and the reference
  rewriting graph walk);
* `_strip_and_dedup_resources` (ProcSet removal and Form XObject merging);
* the external unreferenced-object sweep, modelled from the spec.

Python's in-place mutation of shared pikepdf objects is modelled by explicit
locations: a location names an indirect object plus a path of dictionary keys
and array indices inside that object's stored value; every mutation goes
through a single update-at-location primitive.  A malformed value whose read
raises in Python is modelled by the `bad` constructor together with
references to missing objects; reads of either fail.  Recursion in the
Python code is modelled with an explicit fuel argument; the sanitizer treats
fuel exhaustion as an error (Python's RecursionError on cyclic form
resources), while the walk, whose revisit guard makes it terminate in
Python, simply stops.
-/

namespace OptimizePdf

/-! ### Byte lists and SHA-256 -/

abbrev Bytes := List Nat

def mask32 (x : Nat) : Nat := x % 4294967296

def rotr32 (n x : Nat) : Nat := mask32 ((x >>> n) ||| (x <<< (32 - n)))

def shaCh (x y z : Nat) : Nat := (x &&& y) ^^^ ((x ^^^ 4294967295) &&& z)

def shaMaj (x y z : Nat) : Nat := (x &&& y) ^^^ (x &&& z) ^^^ (y &&& z)

def bigSigma0 (x : Nat) : Nat := rotr32 2 x ^^^ rotr32 13 x ^^^ rotr32 22 x

def bigSigma1 (x : Nat) : Nat := rotr32 6 x ^^^ rotr32 11 x ^^^ rotr32 25 x

def smallSigma0 (x : Nat) : Nat := rotr32 7 x ^^^ rotr32 18 x ^^^ (x >>> 3)

def smallSigma1 (x : Nat) : Nat := rotr32 17 x ^^^ rotr32 19 x ^^^ (x >>> 10)

def shaK : List Nat :=
  [1116352408, 1899447441, 3049323471, 3921009573, 961987163,
   1508970993, 2453635748, 2870763221, 3624381080, 310598401,
   607225278, 1426881987, 1925078388, 2162078206, 2614888103,
   3248222580, 3835390401, 4022224774, 264347078, 604807628,
   770255983, 1249150122, 1555081692, 1996064986, 2554220882,
   2821834349, 2952996808, 3210313671, 3336571891, 3584528711,
   113926993, 338241895, 666307205, 773529912, 1294757372,
   1396182291, 1695183700, 1986661051, 2177026350, 2456956037,
   2730485921, 2820302411, 3259730800, 3345764771, 3516065817,
   3600352804, 4094571909, 275423344, 430227734, 506948616,
   659060556, 883997877, 958139571, 1322822218, 1537002063,
   1747873779, 1955562222, 2024104815, 2227730452, 2361852424,
   2428436474, 2756734187, 3204031479, 3329325298]

def shaH0 : List Nat :=
  [1779033703, 3144134277, 1013904242, 2773480762,
   1359893119, 2600822924, 528734635, 1541459225]

/-- Big-endian byte rendering of `n` on `k` bytes. -/
def beBytes (k n : Nat) : Bytes :=
  (List.range k).map (fun i => (n >>> (8 * (k - 1 - i))) % 256)

/-- SHA-256 message padding: a 0x80 byte, zeros, and the 64-bit bit length. -/
def shaPad (m : Bytes) : Bytes :=
  let L := m.length
  m ++ [128] ++ List.replicate ((64 - ((L + 9) % 64)) % 64) 0 ++ beBytes 8 (8 * L)

/-- Split into 64-byte chunks; `fuel` bounds the number of chunks taken. -/
def splitChunks : Nat → Bytes → List Bytes
  | 0, _ => []
  | _, [] => []
  | fuel + 1, l => l.take 64 :: splitChunks fuel (l.drop 64)

/-- Big-endian 32-bit words from bytes. -/
def toWords : Bytes → List Nat
  | a :: b :: c :: d :: t =>
    (a * 16777216 + b * 65536 + c * 256 + d) :: toWords t
  | _ => []

def wordAt (l : List Nat) (i : Nat) : Nat := l.getD i 0

/-- Extend the 16-word block to the 64-entry message schedule. -/
def extendSched : Nat → List Nat → List Nat
  | 0, acc => acc
  | fuel + 1, acc =>
    let i := acc.length
    let nw := mask32 (wordAt acc (i - 16) + smallSigma0 (wordAt acc (i - 15)) +
      wordAt acc (i - 7) + smallSigma1 (wordAt acc (i - 2)))
    extendSched fuel (acc ++ [nw])

/-- The 64 compression rounds. -/
def shaRounds : List Nat → List Nat → List Nat → List Nat
  | k :: ks, w :: ws, [a, b, c, d, e, f, g, h] =>
    let t1 := mask32 (h + bigSigma1 e + shaCh e f g + k + w)
    let t2 := mask32 (bigSigma0 a + shaMaj a b c)
    shaRounds ks ws [mask32 (t1 + t2), a, b, c, mask32 (d + t1), e, f, g]
  | _, _, s => s

def compressChunk (H : List Nat) (chunk : Bytes) : List Nat :=
  let s := shaRounds shaK (extendSched 48 (toWords chunk)) H
  List.zipWith (fun x y => mask32 (x + y)) H s

/-- SHA-256 digest (32 bytes) of a byte list, as `hashlib.sha256(...).digest()`. -/
def sha256 (m : Bytes) : Bytes :=
  let p := shaPad m
  ((splitChunks p.length p).foldl compressChunk shaH0).foldr
    (fun w acc => beBytes 4 w ++ acc) []

/-! ### The PDF document graph -/

/-- Object identity: (object number, generation number).  Inline
(non-indirect) values all report the placeholder identity `(0, 0)`. -/
abbrev ObjGen := Nat × Nat

/-- A stored PDF value as it sits inside an object: either an indirect
reference or an inline value.  `bad` models a malformed sub-object whose
resolution raises in the underlying library (the spec's "malformed graph
element"); a `ref` to a missing object is treated the same way at read
time. -/
inductive PdfVal where
  | ref (og : ObjGen)
  | dict (es : List (String × PdfVal))
  | arr (es : List PdfVal)
  | name (s : String)
  | int (n : Int)
  | null
  | bad

abbrev Entries := List (String × PdfVal)

/-- An indirect object: a stream with its metadata dictionary, decoded
payload bytes, optionally readable raw stored bytes (`none` models
`get_stream_buffer(StreamDecodeLevel.none)` raising), and a flag telling
whether the `specialized` decode succeeds; or a plain (non-stream) value. -/
inductive PdfObj where
  | stream (sd : Entries) (decoded : Bytes) (raw : Option Bytes) (specOk : Bool)
  | direct (v : PdfVal)

/-- The document: the indirect-object table in enumeration order
(`pdf.objects`) plus the identities of the page objects (`pdf.pages`). -/
structure Doc where
  objects : List (ObjGen × PdfObj)
  pages : List ObjGen

def Doc.find (d : Doc) (og : ObjGen) : Option PdfObj :=
  (d.objects.find? (fun p => p.1 = og)).map (fun p => p.2)

def Doc.setObj (d : Doc) (og : ObjGen) (o : PdfObj) : Doc :=
  { d with objects := d.objects.map (fun p => if p.1 = og then (og, o) else p) }

/-! ### Locations: in-place mutation of the shared object graph

pikepdf hands out live handles into an object's storage; mutating through a
handle mutates the owning indirect object.  A `Loc` names such a handle: the
owning indirect object plus the path of dictionary keys / array indices from
that object's stored value (its stream dictionary, for streams) down to the
handle.  Paths never cross indirect references - following a reference
yields a new `Loc` with an empty path. -/

inductive Step where
  | key (k : String)
  | idx (i : Nat)

structure Loc where
  og : ObjGen
  path : List Step

def lookupKey (es : Entries) (k : String) : Option PdfVal :=
  (es.find? (fun p => p.1 = k)).map (fun p => p.2)

def hasKey (es : Entries) (k : String) : Bool :=
  (es.find? (fun p => p.1 = k)).isSome

def removeKey (es : Entries) (k : String) : Entries :=
  es.filter (fun p => ¬ p.1 = k)

/-- Replace the value at an existing key, else append (Python dict
assignment `d[key] = v`). -/
def setKey (es : Entries) (k : String) (v : PdfVal) : Entries :=
  if hasKey es k then es.map (fun p => if p.1 = k then (k, v) else p)
  else es ++ [(k, v)]

/-- The stored value a path navigation starts from: the stream dictionary
for streams, the value itself otherwise. -/
def rootVal : PdfObj → PdfVal
  | .stream sd _ _ _ => .dict sd
  | .direct v => v

/-- Rebuild an object around an updated root value, keeping stream payload
fields untouched. -/
def setRootVal : PdfObj → PdfVal → PdfObj
  | .stream _ dec raw sp, .dict es => .stream es dec raw sp
  | .stream sd dec raw sp, _ => .stream sd dec raw sp
  | .direct _, v => .direct v

def valAt : PdfVal → List Step → Option PdfVal
  | v, [] => some v
  | .dict es, .key k :: p => (lookupKey es k).bind (fun v => valAt v p)
  | .arr es, .idx i :: p => (es.get? i).bind (fun v => valAt v p)
  | _, _ => none

def modValAt : PdfVal → List Step → (PdfVal → PdfVal) → PdfVal
  | v, [], f => f v
  | .dict es, .key k :: p, f =>
    .dict (es.map (fun q => if q.1 = k then (k, modValAt q.2 p f) else q))
  | .arr es, .idx i :: p, f =>
    .arr (es.mapIdx (fun j v => if j = i then modValAt v p f else v))
  | v, _, _ => v

def getAtLoc (d : Doc) (loc : Loc) : Option PdfVal :=
  (d.find loc.og).bind (fun o => valAt (rootVal o) loc.path)

/-- The single mutation primitive: apply `f` to the value at `loc`. -/
def updateAtLoc (d : Doc) (loc : Loc) (f : PdfVal → PdfVal) : Doc :=
  match d.find loc.og with
  | none => d
  | some o => d.setObj loc.og (setRootVal o (modValAt (rootVal o) loc.path f))

def entriesAtLoc (d : Doc) (loc : Loc) : Option Entries :=
  match getAtLoc d loc with
  | some (.dict es) => some es
  | _ => none

/-! ### Reading values

`d[key]` / array iteration in pikepdf resolves indirect references and
yields a handle carrying the target's `objgen`; inline values report the
placeholder `(0, 0)`.  Reading a malformed value, or a reference to a
missing object, raises - modelled as `Except.error`. -/

/-- A successfully read value: a resolved indirect object, or an inline
value. -/
inductive RVal where
  | ind (og : ObjGen) (o : PdfObj)
  | inl (v : PdfVal)

def readVal (d : Doc) : PdfVal → Except Unit RVal
  | .bad => .error ()
  | .ref og =>
    match d.find og with
    | some o => .ok (.ind og o)
    | none => .error ()
  | v => .ok (.inl v)

/-- `getattr(val, "objgen", None)`: inline values report `(0, 0)`. -/
def ogOfRVal : RVal → ObjGen
  | .ind og _ => og
  | .inl _ => (0, 0)

/-- `str(value)` as used by the `Subtype` substring checks; only names
render to something the checks can match. -/
def strOfVal : PdfVal → String
  | .name s => s
  | .int n => toString n
  | .null => "null"
  | .dict _ => "dict"
  | .arr _ => "array"
  | .ref _ => "ref"
  | .bad => "bad"

def startsWithChars : List Char → List Char → Bool
  | [], _ => true
  | _ :: _, [] => false
  | p :: ps, c :: cs => p = c && startsWithChars ps cs

def containsChars (pat : List Char) : List Char → Bool
  | [] => startsWithChars pat []
  | c :: cs => startsWithChars pat (c :: cs) || containsChars pat cs

/-- Python's `pat in s` substring test. -/
def containsSub (pat s : String) : Bool := containsChars pat.toList s.toList

/-- `d.get(k)` with reference resolution, as used for `Subtype` lookups:
absent keys give `none`; malformed values or dangling references raise; a
resolved indirect object is rendered by its value (streams by their
dictionary, which no Subtype check matches). -/
def dictGetResolved (d : Doc) (es : Entries) (k : String) :
    Except Unit (Option PdfVal) :=
  match lookupKey es k with
  | none => .ok none
  | some .bad => .error ()
  | some (.ref og) =>
    match d.find og with
    | none => .error ()
    | some (.direct .bad) => .error ()
    | some (.direct v) => .ok (some v)
    | some (.stream sd _ _ _) => .ok (some (.dict sd))
  | some v => .ok (some v)

/-! ### The content hasher (`_stream_content_bytes`) -/

/-- `_stream_content_bytes`: raw stored bytes when readable at decode level
`none`, else the decoded bytes when the `specialized` decode succeeds, else
failure (the caller treats the stream as unhashable). -/
def contentBytes (raw : Option Bytes) (specOk : Bool) (decoded : Bytes) :
    Option Bytes :=
  match raw with
  | some r => some r
  | none => if specOk then some decoded else none

def streamContentBytes : PdfObj → Option Bytes
  | .stream _ dec raw sp => contentBytes raw sp dec
  | .direct _ => none

def streamDecoded : PdfObj → Option Bytes
  | .stream _ dec _ _ => some dec
  | .direct _ => none

/-- The content digest the optimizer compares: SHA-256 over the bytes the
content-byte reader returns. -/
def digestOfObj (o : PdfObj) : Option Bytes :=
  (streamContentBytes o).map sha256

/-! ### Image deduplication: building the replacement map -/

abbrev HashMap := List (Bytes × ObjGen)
abbrev ReplMap := List (ObjGen × ObjGen)

def hmLookup (hm : HashMap) (g : Bytes) : Option ObjGen :=
  (hm.find? (fun p => p.1 = g)).map (fun p => p.2)

def rmLookup (rm : ReplMap) (og : ObjGen) : Option ObjGen :=
  (rm.find? (fun p => p.1 = og)).map (fun p => p.2)

/-- Python dict assignment `rm[og] = c` (later assignments shadow). -/
def rmInsert (rm : ReplMap) (og c : ObjGen) : ReplMap := (og, c) :: rm

/-- One candidate check of `_deduplicate_images`' enumeration loop: is this
object a stream whose `Subtype` string contains "/Image"?  Errors when the
`Subtype` read raises (unguarded in the code). -/
def imageCheck (d : Doc) (o : PdfObj) : Except Unit Bool :=
  match o with
  | .direct _ => .ok false
  | .stream sd _ _ _ =>
    match dictGetResolved d sd "/Subtype" with
    | .error _ => .error ()
    | .ok none => .ok false
    | .ok (some v) => .ok (containsSub "/Image" (strOfVal v))

/-- The enumeration loop of `_deduplicate_images`: hash every image stream,
record the first carrier of each digest as canonical and map every later
carrier with a different identity to it.  Unhashable streams are skipped. -/
def buildMaps (d : Doc) :
    List (ObjGen × PdfObj) → HashMap → ReplMap → Except Unit (HashMap × ReplMap)
  | [], hm, rm => .ok (hm, rm)
  | (og, o) :: rest, hm, rm =>
    match imageCheck d o with
    | .error _ => .error ()
    | .ok false => buildMaps d rest hm rm
    | .ok true =>
      match streamContentBytes o with
      | none => buildMaps d rest hm rm
      | some bs =>
        let dg := sha256 bs
        match hmLookup hm dg with
        | none => buildMaps d rest ((dg, og) :: hm) rm
        | some c =>
          if og = c then buildMaps d rest hm rm
          else buildMaps d rest hm (rmInsert rm og c)

def buildImageMaps (d : Doc) : Except Unit (HashMap × ReplMap) :=
  buildMaps d d.objects [] []

/-! ### The graph-rewrite walk (`_walk` / `_replace_in_dict`)

State: the document plus the `visited` set of identities.  The walk is
fuelled; Python's walk always terminates (the revisit guard cuts indirect
cycles, inline values are finite trees), so fuel exhaustion is modelled as
silently stopping and the top-level fuel is chosen generously. -/

abbrev WSt := Doc × List ObjGen

/-- The location a successfully read child is walked at: a resolved
indirect object starts a fresh path; an inline value extends the parent's
path by the key just read. -/
def childLocKey (loc : Loc) (k : String) : RVal → Loc
  | .ind og _ => ⟨og, []⟩
  | .inl _ => ⟨loc.og, loc.path ++ [.key k]⟩

def childLocIdx (loc : Loc) (i : Nat) : RVal → Loc
  | .ind og _ => ⟨og, []⟩
  | .inl _ => ⟨loc.og, loc.path ++ [.idx i]⟩

/-- One pending step of the walk: `start` is `_walk(obj)` (revisit guard
plus dispatch on the object's kind), `disp` its dispatch,
`keys`/`elems` the per-key / per-element loops of `_replace_in_dict` and
the array branch. -/
inductive WTask where
  | start (loc : Loc)
  | disp (loc : Loc)
  | keys (loc : Loc) (ks : List String)
  | elems (loc : Loc) (i len : Nat)

/-- The graph walk, one function over pending tasks so that recursion is
structural in the fuel and reduces definitionally.  Fuel counts processing
steps; the top-level budget (`bigFuel`) dwarfs the step count of any walk
on a finite document, and the walk itself always terminates in Python
(the revisit guard cuts indirect cycles and inline values are finite
trees), so the exhaustion branch is never reached from the entry point. -/
def walkF (rm : ReplMap) : Nat → WSt → WTask → WSt
  | 0, st, _ => st
  | fuel + 1, (doc, vis), .start loc =>
    let og : ObjGen := if loc.path.isEmpty then loc.og else (0, 0)
    if og = ((0, 0) : ObjGen) then
      walkF rm fuel (doc, vis) (.disp loc)
    else if og ∈ vis then (doc, vis)
    else walkF rm fuel (doc, og :: vis) (.disp loc)
  | fuel + 1, (doc, vis), .disp loc =>
    (match getAtLoc doc loc with
     | some (.dict es) => walkF rm fuel (doc, vis) (.keys loc (es.map (fun p => p.1)))
     | some (.arr es) => walkF rm fuel (doc, vis) (.elems loc 0 es.length)
     | _ => (doc, vis))
  | _ + 1, st, .keys _ [] => st
  | fuel + 1, (doc, vis), .keys loc (k :: ks) =>
    (match entriesAtLoc doc loc with
     | none => (doc, vis)
     | some es =>
       match lookupKey es k with
       | none => walkF rm fuel (doc, vis) (.keys loc ks)
       | some stored =>
         match readVal doc stored with
         | .error _ => walkF rm fuel (doc, vis) (.keys loc ks)
         | .ok rv =>
           match rmLookup rm (ogOfRVal rv) with
           | some c =>
             let doc' := updateAtLoc doc loc (fun v =>
               match v with
               | .dict es2 => .dict (setKey es2 k (.ref c))
               | v => v)
             walkF rm fuel (doc', vis) (.keys loc ks)
           | none =>
             walkF rm fuel (walkF rm fuel (doc, vis) (.start (childLocKey loc k rv)))
               (.keys loc ks))
  | fuel + 1, (doc, vis), .elems loc i len =>
    if i ≥ len then (doc, vis)
    else
      match getAtLoc doc loc with
      | some (.arr es) =>
        (match es.get? i with
         | none => (doc, vis)
         | some stored =>
           match readVal doc stored with
           | .error _ => (doc, vis)
           | .ok rv =>
             match rmLookup rm (ogOfRVal rv) with
             | some c =>
               let doc' := updateAtLoc doc loc (fun v =>
                 match v with
                 | .arr es2 => .arr (es2.set i (.ref c))
                 | v => v)
               walkF rm fuel (doc', vis) (.elems loc (i + 1) len)
             | none =>
               walkF rm fuel (walkF rm fuel (doc, vis) (.start (childLocIdx loc i rv)))
                 (.elems loc (i + 1) len))
      | _ => (doc, vis)

/-- `_walk(obj)` on the handle at `loc`. -/
def walkLoc (rm : ReplMap) (fuel : Nat) (st : WSt) (loc : Loc) : WSt :=
  walkF rm fuel st (.start loc)

/-- A step budget far beyond the step count of any walk or sanitizer run
on a finite document. -/
def bigFuel : Nat := 2 ^ 64

/-- Fuel for one walk: see `walkF`. -/
def docFuel (_ : Doc) : Nat := bigFuel

/-- `_deduplicate_images`: build the maps over the whole object table, then
(if any duplicate was found) rewrite references by walking from every page
with a shared visited set. -/
def dedupImages (d : Doc) : Except Unit Doc :=
  match buildImageMaps d with
  | .error _ => .error ()
  | .ok (_, rm) =>
    if rm.isEmpty then .ok d
    else
      .ok (d.pages.foldl (fun st og => walkLoc rm (docFuel d) st ⟨og, []⟩)
        (d, ([] : List ObjGen))).1

/-! ### The resource sanitizer (`_strip_and_dedup_resources`)

The sanitizer's reads are unguarded (only hashing is wrapped), so a failing
read aborts the whole pass: the functions are `Except`-valued.  It has no
revisit guard; cyclic form-resource chains recurse forever in Python
(RecursionError), modelled as fuel exhaustion being an error.  Fuel is
consumed per nesting level only, and bounds recursion depth like the
Python stack does. -/

/-- One pending step of the sanitizer: `res` is `_process_resources` on a
resources handle, `xkeys` the loop over the snapshot of XObject keys. -/
inductive STask where
  | res (loc : Loc)
  | xkeys (xloc : Loc) (ks : List String)

/-- The sanitizer, one function over pending tasks, structural in the
fuel.  Fuel counts processing steps; exhaustion is an error, modelling
Python's RecursionError on cyclic form-resource chains (the sanitizer has
no revisit guard).  Any terminating Python run takes far fewer steps than
the top-level budget `bigFuel`.

`.res loc`: `_process_resources` - delete `/ProcSet`, then handle each
XObject entry.  All its reads are unguarded, so a failing read is an
error of the whole pass.

`.xkeys xloc ks`: the XObject loop - only streams whose `Subtype` string
contains "/Form" are handled; a form's own resources are processed before
the form is hashed; hashing failures skip the form (the one guarded
operation); a later duplicate is rewritten in place to the canonical
form. -/
def sanF : Nat → Doc → HashMap → STask → Except Unit (Doc × HashMap)
  | 0, _, _, _ => .error ()
  | fuel + 1, doc, fhm, .res loc =>
    (match getAtLoc doc loc with
     | some (.dict es) =>
       let doc1 :=
         if hasKey es "/ProcSet" then
           updateAtLoc doc loc (fun v =>
             match v with
             | .dict es2 => .dict (removeKey es2 "/ProcSet")
             | v => v)
         else doc
       match entriesAtLoc doc1 loc with
       | none => .error ()
       | some es1 =>
         match lookupKey es1 "/XObject" with
         | none => .ok (doc1, fhm)
         | some stored =>
           match readVal doc1 stored with
           | .error _ => .error ()
           | .ok rv =>
             let xloc :=
               match rv with
               | .ind og _ => Loc.mk og []
               | .inl _ => Loc.mk loc.og (loc.path ++ [.key "/XObject"])
             match entriesAtLoc doc1 xloc with
             | none => .error ()
             | some xes => sanF fuel doc1 fhm (.xkeys xloc (xes.map (fun p => p.1)))
     | _ => .error ())
  | _ + 1, doc, fhm, .xkeys _ [] => .ok (doc, fhm)
  | fuel + 1, doc, fhm, .xkeys xloc (k :: ks) =>
    (match entriesAtLoc doc xloc with
     | none => .error ()
     | some xes =>
       match lookupKey xes k with
       | none => .error ()
       | some stored =>
         match readVal doc stored with
         | .error _ => .error ()
         | .ok (.inl _) => sanF fuel doc fhm (.xkeys xloc ks)
         | .ok (.ind _ (.direct _)) => sanF fuel doc fhm (.xkeys xloc ks)
         | .ok (.ind ogx (.stream sd dec raw sp)) =>
           match dictGetResolved doc sd "/Subtype" with
           | .error _ => .error ()
           | .ok none => sanF fuel doc fhm (.xkeys xloc ks)
           | .ok (some sv) =>
             if containsSub "/Form" (strOfVal sv) then
               let recRes : Except Unit (Doc × HashMap) :=
                 match lookupKey sd "/Resources" with
                 | none => .ok (doc, fhm)
                 | some .bad => .error ()
                 | some (.ref ogr) =>
                   if (doc.find ogr).isSome then sanF fuel doc fhm (.res ⟨ogr, []⟩)
                   else .error ()
                 | some _ => sanF fuel doc fhm (.res ⟨ogx, [.key "/Resources"]⟩)
               match recRes with
               | .error _ => .error ()
               | .ok (doc2, fhm2) =>
                 match contentBytes raw sp dec with
                 | none => sanF fuel doc2 fhm2 (.xkeys xloc ks)
                 | some bs =>
                   let dg := sha256 bs
                   match hmLookup fhm2 dg with
                   | none => sanF fuel doc2 ((dg, ogx) :: fhm2) (.xkeys xloc ks)
                   | some c =>
                     if ogx = c then sanF fuel doc2 fhm2 (.xkeys xloc ks)
                     else
                       let doc3 := updateAtLoc doc2 xloc (fun v =>
                         match v with
                         | .dict es2 => .dict (setKey es2 k (.ref c))
                         | v => v)
                       sanF fuel doc3 fhm2 (.xkeys xloc ks)
             else sanF fuel doc fhm (.xkeys xloc ks))

/-- `_process_resources` on the resources handle at `loc`. -/
def procRes (fuel : Nat) (doc : Doc) (fhm : HashMap) (loc : Loc) :
    Except Unit (Doc × HashMap) :=
  sanF fuel doc fhm (.res loc)

/-- Fuel for one page's sanitizer run: see `sanF`. -/
def sanFuel (_ : Doc) : Nat := bigFuel

/-- One page of `_strip_and_dedup_resources`: fetch `/Resources` (absent:
skip the page; unreadable: the unguarded `.get` raises). -/
def sanitizePage (doc : Doc) (fhm : HashMap) (ogp : ObjGen) :
    Except Unit (Doc × HashMap) :=
  match doc.find ogp with
  | none => .ok (doc, fhm)
  | some o =>
    match rootVal o with
    | .dict es =>
      match lookupKey es "/Resources" with
      | none => .ok (doc, fhm)
      | some .bad => .error ()
      | some (.ref ogr) =>
        if (doc.find ogr).isSome then procRes (sanFuel doc) doc fhm ⟨ogr, []⟩
        else .error ()
      | some _ => procRes (sanFuel doc) doc fhm ⟨ogp, [.key "/Resources"]⟩
    | _ => .ok (doc, fhm)

def sanitizePages (doc : Doc) (fhm : HashMap) :
    List ObjGen → Except Unit (Doc × HashMap)
  | [] => .ok (doc, fhm)
  | og :: rest =>
    match sanitizePage doc fhm og with
    | .error _ => .error ()
    | .ok (doc', fhm') => sanitizePages doc' fhm' rest

/-- `_strip_and_dedup_resources`: one shared form-hash map across all
pages. -/
def stripAndDedup (d : Doc) : Except Unit (Doc × HashMap) :=
  sanitizePages d [] d.pages

/-! ### Reachability and the external unreferenced-object sweep -/

inductive RTask where
  | v (val : PdfVal)
  | es (entries : Entries)
  | vs (vals : List PdfVal)

/-- All identities referenced from a value, fuelled for structural
recursion; any finite value's depth is far below `bigFuel`. -/
def refsF : Nat → RTask → List ObjGen
  | 0, _ => []
  | _ + 1, .v (.ref og) => [og]
  | fuel + 1, .v (.dict es) => refsF fuel (.es es)
  | fuel + 1, .v (.arr vs) => refsF fuel (.vs vs)
  | _ + 1, .v _ => []
  | _ + 1, .es [] => []
  | fuel + 1, .es ((_, v) :: t) => refsF fuel (.v v) ++ refsF fuel (.es t)
  | _ + 1, .vs [] => []
  | fuel + 1, .vs (v :: t) => refsF fuel (.v v) ++ refsF fuel (.vs t)

def refsOfObj : PdfObj → List ObjGen
  | .stream sd _ _ _ => refsF bigFuel (.es sd)
  | .direct v => refsF bigFuel (.v v)

def reachGo (d : Doc) : Nat → List ObjGen → List ObjGen → List ObjGen
  | 0, _, done => done
  | _ + 1, [], done => done
  | fuel + 1, og :: rest, done =>
    if og ∈ done then reachGo d fuel rest done
    else
      reachGo d fuel
        (rest ++ (match d.find og with | some o => refsOfObj o | none => []))
        (og :: done)

def reachFuel (_ : Doc) : Nat := bigFuel

/-- Identities reachable from the given roots by following stored
references (through stream dictionaries, dictionaries and arrays). -/
def reachOgs (d : Doc) (roots : List ObjGen) : List ObjGen :=
  reachGo d (reachFuel d) roots []

/-- Modelled from the spec: the external unreferenced-object collection
sweep invoked after the optimizer's own phases
(`pdf.remove_unreferenced_resources()`, library code not part of this
repository).  The spec describes it as dropping the objects that are no
longer referenced from any page-reachable path. -/
def removeUnreferenced (d : Doc) : Doc :=
  let r := reachOgs d d.pages
  { objects := d.objects.filter (fun p => p.1 ∈ r), pages := d.pages }

/-- `optimize_pdf`: the strict pipeline - image deduplication and graph
rewrite, then resource sanitizing, then the external sweep. -/
def optimizePdf (d : Doc) : Except Unit Doc :=
  match dedupImages d with
  | .error _ => .error ()
  | .ok d1 =>
    match stripAndDedup d1 with
    | .error _ => .error ()
    | .ok (d2, _) => .ok (removeUnreferenced d2)

/-! ### Observation helpers for the testable properties -/

def isImageStream (d : Doc) (o : PdfObj) : Bool :=
  match imageCheck d o with
  | .ok b => b
  | .error _ => false

/-- The content digests of the image streams reachable from the given
roots. -/
def reachImageDigests (d : Doc) (roots : List ObjGen) : List Bytes :=
  (reachOgs d roots).filterMap (fun og =>
    match d.find og with
    | some o => if isImageStream d o then digestOfObj o else none
    | none => none)

/-! ### Concrete documents used by the counterexamples and failing inputs -/

def emptyDoc : Doc := { objects := [], pages := [] }

def docOf : Except Unit Doc → Doc
  | .ok d => d
  | .error _ => emptyDoc

/-- `true` iff the optional value is a reference to exactly `og`. -/
def isRefTo (v : Option PdfVal) (og : ObjGen) : Bool :=
  match v with
  | some (.ref og2) => og2 = og
  | _ => false

/-- An image stream with the given payload and extra dictionary entries;
raw bytes unreadable, specialized decode fine. -/
def mkImg (payload : Bytes) (extra : Entries) : PdfObj :=
  .stream (("/Subtype", PdfVal.name "/Image") :: extra) payload none true

/-- C1: stream A stores its content encoded, so raw bytes are readable but
differ from the decoded payload. -/
def c1A : PdfObj := .stream [] [1, 2] (some [9, 9]) true

/-- C1: stream B is packed so the raw read fails and the decoded fallback
is used. -/
def c1B : PdfObj := .stream [] [1, 2] none true

/-- C2: two images with identical payload (so identical digest) but
different transparency masks; the page references only the second copy,
whose mask has payload `[3]`. -/
def c2doc : Doc :=
  { objects :=
      [((1, 0), mkImg [1] [("/SMask", .ref (3, 0))]),
       ((2, 0), mkImg [1] [("/SMask", .ref (4, 0))]),
       ((3, 0), mkImg [2] []),
       ((4, 0), mkImg [3] []),
       ((5, 0), .direct (.dict [("/Type", .name "/Page"),
         ("/Resources", .dict [("/XObject", .dict [("/Im", .ref (2, 0))])])]))],
    pages := [(5, 0)] }

def c2after : Doc := docOf (optimizePdf c2doc)

/-- C3/C5 core shape: the canonical image `(3,0)` itself holds a reference
to the duplicate image `(2,0)`; `(3,0)` is only reachable through edges the
rewriter replaces, so it is never walked. -/
def c3doc : Doc :=
  { objects :=
      [((1, 0), mkImg [0] []),
       ((2, 0), mkImg [0] []),
       ((3, 0), mkImg [1] [("/SMask", .ref (2, 0))]),
       ((4, 0), mkImg [1] []),
       ((5, 0), .direct (.dict
         [("/Resources", .dict [("/XObject", .dict [("/Im", .ref (4, 0))])])]))],
    pages := [(5, 0)] }

def c3after : Doc := docOf (dedupImages c3doc)

def c3replMap : ReplMap :=
  match buildImageMaps c3doc with
  | .ok (_, rm) => rm
  | .error _ => []

/-- C5: as `c3doc` but the two duplicates of digest `sha256 [0]` carry
distinct masks (payloads `[2]` and `[3]`), and the canonical `(1,0)` is
also referenced directly so the sweep keeps it for the second run. -/
def c5doc : Doc :=
  { objects :=
      [((1, 0), mkImg [0] [("/SMask", .ref (7, 0))]),
       ((2, 0), mkImg [0] [("/SMask", .ref (6, 0))]),
       ((3, 0), mkImg [1] [("/SMask", .ref (2, 0))]),
       ((4, 0), mkImg [1] []),
       ((5, 0), .direct (.dict [("/Resources", .dict [("/XObject",
         .dict [("/A", .ref (1, 0)), ("/Im", .ref (4, 0))])])])),
       ((6, 0), mkImg [3] []),
       ((7, 0), mkImg [2] [])],
    pages := [(5, 0)] }

def c5once : Doc := docOf (optimizePdf c5doc)

def c5twice : Doc := docOf (optimizePdf c5once)

/-- C4: a form whose resources hold a ProcSet entry, reachable from the
page only through a tiling-pattern stream. -/
def c4doc : Doc :=
  { objects :=
      [((1, 0), .direct (.dict [("/Resources", .dict
         [("/ProcSet", .arr [.name "/PDF"]),
          ("/Pattern", .dict [("/P1", .ref (2, 0))])])])),
       ((2, 0), .stream [("/PatternType", .int 1),
         ("/Resources", .dict [("/XObject", .dict [("/F1", .ref (3, 0))])])]
         [9] none true),
       ((3, 0), .stream [("/Subtype", .name "/Form"),
         ("/Resources", .dict [("/ProcSet", .arr [.name "/PDF"])])]
         [8] none true)],
    pages := [(1, 0)] }

def c4after : Doc := docOf (optimizePdf c4doc)

/-- C7: a duplicate image referenced from an inline dictionary nested three
levels deep, after another inline dictionary has already been walked. -/
def c7doc : Doc :=
  { objects :=
      [((1, 0), mkImg [1] []),
       ((2, 0), mkImg [1] []),
       ((3, 0), .direct (.dict
         [("/A", .dict [("/B", .int 0)]),
          ("/R", .dict [("/P", .dict [("/X", .dict [("/Im", .ref (2, 0))])])])]))],
    pages := [(3, 0)] }

def c7after : Doc := docOf (dedupImages c7doc)

/-- C8: two forms with identical payload bytes whose resources reference
the two different copies of one image. -/
def c8doc : Doc :=
  { objects :=
      [((1, 0), mkImg [1] []),
       ((2, 0), mkImg [1] []),
       ((3, 0), .stream [("/Subtype", .name "/Form"),
         ("/Resources", .dict [("/XObject", .dict [("/Im", .ref (1, 0))])])]
         [7] none true),
       ((4, 0), .stream [("/Subtype", .name "/Form"),
         ("/Resources", .dict [("/XObject", .dict [("/Im", .ref (2, 0))])])]
         [7] none true),
       ((5, 0), .direct (.dict
         [("/Resources", .dict [("/XObject", .dict [("/F", .ref (3, 0))])])])),
       ((6, 0), .direct (.dict
         [("/Resources", .dict [("/XObject", .dict [("/F", .ref (4, 0))])])]))],
    pages := [(5, 0), (6, 0)] }

def c8real : Doc := docOf (optimizePdf c8doc)

/-- Running the sanitizer's form deduplication first, before any image
deduplication - the order the claim says would fail to merge. -/
def c8swapped : Doc :=
  match stripAndDedup c8doc with
  | .ok (d, _) => d
  | .error _ => emptyDoc

def c8fhm : HashMap :=
  match stripAndDedup c8doc with
  | .ok (_, fhm) => fhm
  | .error _ => []

/-- C9: a single malformed XObject entry. -/
def c9doc : Doc :=
  { objects :=
      [((1, 0), .direct (.dict
        [("/Resources", .dict [("/XObject", .dict [("/F", .bad)])])]))],
    pages := [(1, 0)] }

/-- A minimal duplicate pair: object `(2, 0)` duplicates `(1, 0)`. -/
def pairDoc : Doc :=
  { objects := [((1, 0), mkImg [1] []), ((2, 0), mkImg [1] [])],
    pages := [] }

def pairHm : HashMap := [(sha256 [1], (1, 0))]

def pairRm : ReplMap := [((2, 0), (1, 0))]

/-- A duplicate pair plus an image stream `(1, 0)` that is unhashable:
raw bytes unreadable and the specialized decode failing too. -/
def unhashDoc : Doc :=
  { objects :=
      [((1, 0), .stream [("/Subtype", .name "/Image")] [5] none false),
       ((2, 0), mkImg [1] []),
       ((3, 0), mkImg [1] [])],
    pages := [] }

def unhashHm : HashMap := [(sha256 [1], (2, 0))]

def unhashRm : ReplMap := [((3, 0), (2, 0))]

/-! ### Observables for the sanitizer's ProcSet postcondition -/

/-- "This value, if it is a dictionary, has no ProcSet key." -/
def pfOpt : Option PdfVal → Bool
  | some (.dict es) => !hasKey es "/ProcSet"
  | _ => true

/-- ProcSet-freeness of the dictionary at a location. -/
def pfLoc (d : Doc) (L : Loc) : Bool := pfOpt (getAtLoc d L)

/-- The stored `/Resources` value at an object's root dictionary. -/
def lookupRes (d : Doc) (og : ObjGen) : Option PdfVal :=
  match d.find og with
  | some o =>
    match rootVal o with
    | .dict es => lookupKey es "/Resources"
    | _ => none
  | none => none

/-- The shape of a resources value: absent, a reference (to whom), or
inline. -/
def resShape : Option PdfVal → Option (Option ObjGen)
  | none => none
  | some (.ref r) => some (some r)
  | some _ => some none

/-- The object's own resources dictionary has no ProcSet entry (pages and
forms alike; vacuously true when there is no resources dictionary). -/
def ownResProcSetFree (d : Doc) (og : ObjGen) : Bool :=
  match resShape (lookupRes d og) with
  | none => true
  | some (some r) => pfLoc d ⟨r, []⟩
  | some none => pfLoc d ⟨og, [.key "/Resources"]⟩

def isStreamAt (d : Doc) (og : ObjGen) : Bool :=
  match d.find og with
  | some (.stream _ _ _ _) => true
  | _ => false

/-- The value at key `k`, if a reference, does not point at a stream. -/
def keyNotStreamRef (d : Doc) (es : Entries) (k : String) : Bool :=
  match lookupKey es k with
  | some (.ref r) => !(isStreamAt d r)
  | _ => true

/-- A dictionary the sanitizer may iterate over: its ProcSet and
Resources entries, if references, do not point at streams (otherwise the
XObject loop could overwrite a `/ProcSet` or `/Resources` key with a
canonical-form reference). -/
def dictOK (d : Doc) (es : Entries) : Bool :=
  keyNotStreamRef d es "/ProcSet" && keyNotStreamRef d es "/Resources"

def dictOKLoc (d : Doc) (L : Loc) : Bool :=
  match entriesAtLoc d L with
  | some es => dictOK d es
  | none => true

/-- Well-formedness for the sanitizer postcondition: every dictionary the
XObject loop can iterate (object roots, inline XObject dictionaries, and
XObject dictionaries inside inline resources) satisfies `dictOK`. -/
def sanWellFormed (d : Doc) : Bool :=
  d.objects.all (fun p =>
    dictOKLoc d ⟨p.1, []⟩ &&
    dictOKLoc d ⟨p.1, [.key "/XObject"]⟩ &&
    dictOKLoc d ⟨p.1, [.key "/Resources", .key "/XObject"]⟩)

/-! ### Observables for characterizing the replacement map -/

/-- An object the deduplicator both classifies as an image and manages to
hash - the ones that participate in canonical selection. -/
def consideredHashable (d : Doc) (o : PdfObj) : Bool :=
  isImageStream d o && (streamContentBytes o).isSome

/-- The first object in `l` (enumeration order) that is a hashable image
with digest `g`. -/
def firstIn (d : Doc) (l : List (ObjGen × PdfObj)) (g : Bytes) : Option ObjGen :=
  ((l.filter (fun p => consideredHashable d p.2 &&
    decide (digestOfObj p.2 = some g))).head?).map (fun p => p.1)

/-- The canonical object for digest `g`: the first hashable image stream
carrying `g` in object-enumeration order. -/
def firstWithDigest (d : Doc) (g : Bytes) : Option ObjGen :=
  firstIn d d.objects g

/-- What the spec says a replacement-map entry is: `og` is a hashable
image stream appearing in `l` whose digest's first-seen canonical is `c`,
a different identity. -/
def RmSpec (d : Doc) (l : List (ObjGen × PdfObj)) (og c : ObjGen) : Prop :=
  ∃ o g, (og, o) ∈ l ∧ consideredHashable d o = true ∧
    digestOfObj o = some g ∧ firstIn d l g = some c ∧ c ≠ og


/-! ### The sanitizer's mutation functions, its well-formedness
side condition, and the ProcSet postcondition machinery -/

def keyRefAt (kk : String) : Option PdfVal → Option ObjGen
  | some (.dict es) =>
    match lookupKey es kk with
    | some (.ref r) => some r
    | _ => none
  | _ => none

def fhmOK (d : Doc) (m : HashMap) : Bool :=
  m.all (fun e => ownResProcSetFree d e.2)

def remPS : PdfVal → PdfVal := fun v =>
  match v with
  | PdfVal.dict es2 => PdfVal.dict (removeKey es2 "/ProcSet")
  | v => v

def setX (k : String) (c : ObjGen) : PdfVal → PdfVal := fun v =>
  match v with
  | PdfVal.dict es2 => PdfVal.dict (setKey es2 k (.ref c))
  | v => v

/-- The sanitizer postcondition at a given fuel. -/
def SanPost (fuel : Nat) : Prop :=
  ∀ (doc : Doc) (fhm : HashMap) (task : STask) (doc' : Doc) (fhm' : HashMap),
    (∀ loc, task = .res loc → loc.path = [] ∨ loc.path = [Step.key "/Resources"]) →
    (∀ xloc ks, task = .xkeys xloc ks → xloc.path = [] ∨
      xloc.path = [Step.key "/XObject"] ∨
      xloc.path = [Step.key "/Resources", Step.key "/XObject"]) →
    sanWellFormed doc = true →
    fhmOK doc fhm = true →
    sanF fuel doc fhm task = .ok (doc', fhm') →
    sanWellFormed doc' = true ∧
    (∀ L, pfLoc doc L = true → pfLoc doc' L = true) ∧
    (∀ og, resShape (lookupRes doc' og) = resShape (lookupRes doc og)) ∧
    fhmOK doc' fhm' = true ∧
    (∀ loc, task = .res loc → pfLoc doc' loc = true)

def c4wdoc : Doc :=
  { objects :=
      [ ((1, 0), .direct (.dict
          [("/Type", .name "/Page"),
           ("/Resources", .dict
             [("/ProcSet", .arr [.name "/PDF"]),
              ("/XObject", .dict [("F1", .ref (5, 0))])])])),
        ((5, 0), .stream
          [("/Subtype", .name "/Form"),
           ("/Resources", .dict [("/ProcSet", .arr [])])]
          [1] (some [1]) true) ],
    pages := [(1, 0)] }

def c4wsan : Doc :=
  { objects :=
      [ ((1, 0), .direct (.dict
          [("/Type", .name "/Page"),
           ("/Resources", .dict
             [("/XObject", .dict [("F1", .ref (5, 0))])])])),
        ((5, 0), .stream
          [("/Subtype", .name "/Form"), ("/Resources", .dict [])]
          [1] (some [1]) true) ],
    pages := [(1, 0)] }

def c4wfhm : HashMap := [(sha256 [1], (5, 0))]

end OptimizePdf

namespace OptimizePdf

/-! ## Theorems -/

/-! ### Association-list and first-occurrence lemmas -/

theorem assocLookup_cons {α β : Type} [DecidableEq α] (a : α) (b : β)
    (l : List (α × β)) (x : α) :
    ((((a, b) :: l).find? (fun p => p.1 = x)).map (fun p => p.2)) =
      if a = x then some b else ((l.find? (fun p => p.1 = x)).map (fun p => p.2)) := by
  by_cases h : a = x <;> simp [List.find?_cons, h]

theorem hmLookup_cons (dg : Bytes) (og : ObjGen) (hm : HashMap) (g : Bytes) :
    hmLookup ((dg, og) :: hm) g = if dg = g then some og else hmLookup hm g :=
  assocLookup_cons dg og hm g

theorem rmLookup_cons (a c : ObjGen) (rm : ReplMap) (x : ObjGen) :
    rmLookup ((a, c) :: rm) x = if a = x then some c else rmLookup rm x :=
  assocLookup_cons a c rm x

theorem find_mem {d : Doc} {og : ObjGen} {o : PdfObj}
    (h : d.find og = some o) : (og, o) ∈ d.objects := by
  unfold Doc.find at h
  cases hf : d.objects.find? (fun p => p.1 = og) with
  | none => rw [hf] at h; simp at h
  | some q =>
    have hq : q ∈ d.objects := List.mem_of_find?_eq_some hf
    have hp := List.find?_some hf
    have h1 : q.1 = og := by simpa using hp
    rw [hf] at h
    have h2 : q.2 = o := by simpa using h
    have hqq : q = (og, o) := by
      cases q
      simp only [Prod.mk.injEq]
      exact ⟨h1, h2⟩
    rwa [hqq] at hq

theorem assocFind_nodup {l : List (ObjGen × PdfObj)} {og : ObjGen} {o : PdfObj}
    (hnd : (l.map (fun p => p.1)).Nodup) (h : (og, o) ∈ l) :
    ((l.find? (fun p => p.1 = og)).map (fun p => p.2)) = some o := by
  induction l with
  | nil => simp at h
  | cons q rest ih =>
    rw [List.map_cons, List.nodup_cons] at hnd
    rcases List.mem_cons.mp h with h | h
    · rw [← h]
      simp [List.find?_cons]
    · have hne : ¬ q.1 = og := by
        intro he
        exact hnd.1 (he ▸ (List.mem_map.mpr ⟨(og, o), h, rfl⟩))
      simp [List.find?_cons, hne]
      simpa using ih hnd.2 h

theorem mem_find_nodup {d : Doc} {og : ObjGen} {o : PdfObj}
    (hnd : (d.objects.map (fun p => p.1)).Nodup)
    (h : (og, o) ∈ d.objects) : d.find og = some o := by
  unfold Doc.find
  exact assocFind_nodup hnd h

/-- Unfolding `firstIn` on an appended singleton whose object does not
participate. -/
theorem firstIn_append_not_considered {d : Doc} {l : List (ObjGen × PdfObj)}
    {x : ObjGen × PdfObj} (hx : consideredHashable d x.2 = false) (g : Bytes) :
    firstIn d (l ++ [x]) g = firstIn d l g := by
  unfold firstIn
  rw [List.filter_append]
  have : List.filter (fun p => consideredHashable d p.2 &&
      decide (digestOfObj p.2 = some g)) [x] = [] := by
    simp [List.filter, hx]
  simp [this]

theorem firstIn_append_other_digest {d : Doc} {l : List (ObjGen × PdfObj)}
    {x : ObjGen × PdfObj} {dg : Bytes} (hdg : digestOfObj x.2 = some dg)
    {g : Bytes} (hne : ¬ dg = g) :
    firstIn d (l ++ [x]) g = firstIn d l g := by
  unfold firstIn
  rw [List.filter_append]
  have : List.filter (fun p => consideredHashable d p.2 &&
      decide (digestOfObj p.2 = some g)) [x] = [] := by
    have : ¬ digestOfObj x.2 = some g := by
      rw [hdg]; intro h; exact hne (by injection h)
    simp [List.filter, this]
  simp [this]

theorem firstIn_append_of_some {d : Doc} {l : List (ObjGen × PdfObj)}
    {g : Bytes} {c : ObjGen} (h : firstIn d l g = some c)
    (l2 : List (ObjGen × PdfObj)) :
    firstIn d (l ++ l2) g = some c := by
  unfold firstIn at h ⊢
  rw [List.filter_append]
  cases hf : List.filter (fun p => consideredHashable d p.2 &&
      decide (digestOfObj p.2 = some g)) l with
  | nil => simp [hf] at h
  | cons a t => simp [hf] at h ⊢; exact h

theorem firstIn_append_of_none {d : Doc} {l : List (ObjGen × PdfObj)}
    {g : Bytes} (h : firstIn d l g = none) (l2 : List (ObjGen × PdfObj)) :
    firstIn d (l ++ l2) g = firstIn d l2 g := by
  unfold firstIn at h ⊢
  rw [List.filter_append]
  cases hf : List.filter (fun p => consideredHashable d p.2 &&
      decide (digestOfObj p.2 = some g)) l with
  | nil => simp [hf]
  | cons a t => simp [hf] at h

/-- The singleton `firstIn` of a participating object is that object. -/
theorem firstIn_single {d : Doc} {x : ObjGen × PdfObj} {dg : Bytes}
    (hc : consideredHashable d x.2 = true) (hd : digestOfObj x.2 = some dg) :
    firstIn d [x] dg = some x.1 := by
  unfold firstIn
  simp [List.filter, hc, hd]

/-- A `firstIn` hit names a participating member with that digest. -/
theorem firstIn_mem {d : Doc} {l : List (ObjGen × PdfObj)} {g : Bytes}
    {c : ObjGen} (h : firstIn d l g = some c) :
    ∃ o, (c, o) ∈ l ∧ consideredHashable d o = true ∧ digestOfObj o = some g := by
  unfold firstIn at h
  cases hf : List.filter (fun p => consideredHashable d p.2 &&
      decide (digestOfObj p.2 = some g)) l with
  | nil => simp [hf] at h
  | cons a t =>
    simp [hf] at h
    have ha : a ∈ List.filter (fun p => consideredHashable d p.2 &&
        decide (digestOfObj p.2 = some g)) l := by rw [hf]; exact List.mem_cons_self a t
    rw [List.mem_filter] at ha
    rcases ha with ⟨hmem, hpred⟩
    simp only [Bool.and_eq_true, decide_eq_true_eq] at hpred
    refine ⟨a.2, ?_, hpred.1, hpred.2⟩
    have : a = (c, a.2) := by cases a; simp_all
    rwa [this] at hmem

/-- A participating member guarantees a `firstIn` hit. -/
theorem firstIn_isSome {d : Doc} {l : List (ObjGen × PdfObj)}
    {og : ObjGen} {o : PdfObj} {g : Bytes} (hmem : (og, o) ∈ l)
    (hc : consideredHashable d o = true) (hd : digestOfObj o = some g) :
    ∃ c, firstIn d l g = some c := by
  unfold firstIn
  cases hf : List.filter (fun p => consideredHashable d p.2 &&
      decide (digestOfObj p.2 = some g)) l with
  | nil =>
    exfalso
    have : (og, o) ∈ List.filter (fun p => consideredHashable d p.2 &&
        decide (digestOfObj p.2 = some g)) l := by
      rw [List.mem_filter]
      exact ⟨hmem, by simp [hc, hd]⟩
    rw [hf] at this
    simp at this
  | cons a t => exact ⟨a.1, by simp⟩

theorem firstIn_append_new {d : Doc} {l : List (ObjGen × PdfObj)}
    {x : ObjGen × PdfObj} {dg : Bytes} (hc : consideredHashable d x.2 = true)
    (hd : digestOfObj x.2 = some dg) (hnone : firstIn d l dg = none) (g : Bytes) :
    firstIn d (l ++ [x]) g = if dg = g then some x.1 else firstIn d l g := by
  by_cases hg : dg = g
  · subst hg
    rw [firstIn_append_of_none hnone, firstIn_single hc hd]
    simp
  · rw [firstIn_append_other_digest hd hg]
    simp [hg]

theorem firstIn_append_dup {d : Doc} {l : List (ObjGen × PdfObj)}
    {x : ObjGen × PdfObj} {dg : Bytes} {c0 : ObjGen}
    (hd : digestOfObj x.2 = some dg) (hsome : firstIn d l dg = some c0) (g : Bytes) :
    firstIn d (l ++ [x]) g = firstIn d l g := by
  by_cases hg : dg = g
  · subst hg
    rw [firstIn_append_of_some hsome, hsome]
  · exact firstIn_append_other_digest hd hg

theorem rmSpec_key_mem {d : Doc} {l : List (ObjGen × PdfObj)} {og c : ObjGen} :
    RmSpec d l og c → og ∈ l.map (fun p => p.1) := by
  rintro ⟨o, g, hmem, _⟩
  exact List.mem_map.mpr ⟨(og, o), hmem, rfl⟩

theorem key_not_in_done {done rest : List (ObjGen × PdfObj)} {og0 : ObjGen}
    {o0 : PdfObj}
    (hnd : ((done ++ (og0, o0) :: rest).map (fun p => p.1)).Nodup) :
    og0 ∉ done.map (fun p => p.1) := by
  rw [List.map_append, List.nodup_append] at hnd
  intro hmem
  exact hnd.2.2 hmem (by simp)

/-- Appending a non-participating object changes no `RmSpec` fact. -/
theorem rmSpec_append_not_considered {d : Doc} {l : List (ObjGen × PdfObj)}
    {x : ObjGen × PdfObj} (hx : consideredHashable d x.2 = false)
    (og c : ObjGen) : RmSpec d (l ++ [x]) og c ↔ RmSpec d l og c := by
  constructor
  · rintro ⟨o, g, hmem, hc, hd, hfi, hne⟩
    rcases List.mem_append.mp hmem with hmem | hmem
    · exact ⟨o, g, hmem, hc, hd, by rwa [firstIn_append_not_considered hx] at hfi, hne⟩
    · exfalso
      have : (og, o) = x := by simpa using hmem
      rw [← this] at hx
      simp [hc] at hx
  · rintro ⟨o, g, hmem, hc, hd, hfi, hne⟩
    exact ⟨o, g, List.mem_append_left _ hmem, hc, hd,
      by rwa [firstIn_append_not_considered hx], hne⟩

/-- Appending the first carrier of a fresh digest changes no `RmSpec`
fact: the new object is its own canonical. -/
theorem rmSpec_append_new {d : Doc} {l : List (ObjGen × PdfObj)}
    {x : ObjGen × PdfObj} {dg : Bytes} (hc : consideredHashable d x.2 = true)
    (hd : digestOfObj x.2 = some dg) (hnone : firstIn d l dg = none)
    (og c : ObjGen) : RmSpec d (l ++ [x]) og c ↔ RmSpec d l og c := by
  constructor
  · rintro ⟨o, g, hmem, hco, hdo, hfi, hne⟩
    rcases List.mem_append.mp hmem with hmem | hmem
    · have hgx : ¬ dg = g := by
        intro he
        subst he
        obtain ⟨c2, hc2⟩ := firstIn_isSome hmem hco hdo
        rw [hnone] at hc2
        exact Option.noConfusion hc2
      rw [firstIn_append_new hc hd hnone, if_neg hgx] at hfi
      exact ⟨o, g, hmem, hco, hdo, hfi, hne⟩
    · exfalso
      have hx : (og, o) = x := by simpa using hmem
      have ho2 : o = x.2 := congrArg Prod.snd hx
      have hgg : g = dg := by
        have hcd : digestOfObj o = some dg := by rw [ho2]; exact hd
        rw [hdo] at hcd
        injection hcd
      subst hgg
      rw [firstIn_append_new hc hd hnone, if_pos rfl] at hfi
      have hcx : c = x.1 := by
        injection hfi with h
        exact h.symm
      apply hne
      rw [hcx, ← hx]
  · rintro ⟨o, g, hmem, hco, hdo, hfi, hne⟩
    have hgx : ¬ dg = g := by
      intro he
      subst he
      rw [hnone] at hfi
      exact Option.noConfusion hfi
    refine ⟨o, g, List.mem_append_left _ hmem, hco, hdo, ?_, hne⟩
    rw [firstIn_append_new hc hd hnone, if_neg hgx]
    exact hfi

/-- Appending a later carrier of an already-seen digest adds exactly the
entry mapping it to that digest's canonical. -/
theorem rmSpec_append_dup {d : Doc} {l : List (ObjGen × PdfObj)}
    {x : ObjGen × PdfObj} {dg : Bytes} {c0 : ObjGen}
    (hc : consideredHashable d x.2 = true) (hd : digestOfObj x.2 = some dg)
    (hsome : firstIn d l dg = some c0) (og c : ObjGen) :
    RmSpec d (l ++ [x]) og c ↔
      (RmSpec d l og c ∨ (og = x.1 ∧ c = c0 ∧ ¬ c0 = x.1)) := by
  constructor
  · rintro ⟨o, g, hmem, hco, hdo, hfi, hne⟩
    rcases List.mem_append.mp hmem with hmem | hmem
    · rw [firstIn_append_dup hd hsome] at hfi
      exact Or.inl ⟨o, g, hmem, hco, hdo, hfi, hne⟩
    · have hx : (og, o) = x := by simpa using hmem
      have ho2 : o = x.2 := congrArg Prod.snd hx
      have hgg : g = dg := by
        have hcd : digestOfObj o = some dg := by rw [ho2]; exact hd
        rw [hdo] at hcd
        injection hcd
      subst hgg
      rw [firstIn_append_dup hd hsome, hsome] at hfi
      have hcc : c = c0 := by
        injection hfi with h
        exact h.symm
      refine Or.inr ⟨?_, hcc, ?_⟩
      · rw [← hx]
      · intro he
        apply hne
        rw [hcc, he, ← hx]
  · rintro (⟨o, g, hmem, hco, hdo, hfi, hne⟩ | ⟨hog, hcc, hne⟩)
    · exact ⟨o, g, List.mem_append_left _ hmem, hco, hdo,
        by rwa [firstIn_append_dup hd hsome], hne⟩
    · refine ⟨x.2, dg, ?_, hc, hd, ?_, ?_⟩
      · rw [hog]
        exact List.mem_append_right _ (by simp)
      · rw [firstIn_append_dup hd hsome, hsome, hcc]
      · rw [hog, hcc]
        exact hne

/-- The enumeration loop of `_deduplicate_images` computes exactly the
first-seen-canonical hash table and the later-duplicate replacement map
described by the spec. -/
theorem buildMaps_characterization (d : Doc)
    (hnd : (d.objects.map (fun p => p.1)).Nodup) :
    ∀ rest done hm rm,
      d.objects = done ++ rest →
      (∀ g, hmLookup hm g = firstIn d done g) →
      (∀ og c, rmLookup rm og = some c ↔ RmSpec d done og c) →
      ∀ hm2 rm2, buildMaps d rest hm rm = .ok (hm2, rm2) →
      (∀ g, hmLookup hm2 g = firstIn d d.objects g) ∧
      (∀ og c, rmLookup rm2 og = some c ↔ RmSpec d d.objects og c) := by
  intro rest
  induction rest with
  | nil =>
    intro done hm rm heq hinvh hinvr hm2 rm2 hok
    rw [List.append_nil] at heq
    simp only [buildMaps] at hok
    injection hok with h
    have ha : hm = hm2 := congrArg Prod.fst h
    have hb : rm = rm2 := congrArg Prod.snd h
    subst ha; subst hb
    rw [heq]
    exact ⟨hinvh, hinvr⟩
  | cons x rest ih =>
    intro done hm rm heq hinvh hinvr hm2 rm2 hok
    obtain ⟨og0, o0⟩ := x
    have heq' : d.objects = (done ++ [(og0, o0)]) ++ rest := by
      rw [heq, List.append_assoc]
      rfl
    simp only [buildMaps] at hok
    split at hok
    · exact Except.noConfusion hok
    · -- imageCheck gave `false`: not an image, skipped
      rename_i himg
      have hx : consideredHashable d o0 = false := by
        simp [consideredHashable, isImageStream, himg]
      refine ih (done ++ [(og0, o0)]) hm rm heq' ?_ ?_ hm2 rm2 hok
      · intro g
        rw [firstIn_append_not_considered hx, hinvh]
      · intro og c
        rw [rmSpec_append_not_considered hx, hinvr]
    · -- an image stream: now split on hashability
      rename_i himg
      split at hok
      · -- unhashable: skipped
        rename_i hnone
        have hx : consideredHashable d o0 = false := by
          simp [consideredHashable, hnone]
        refine ih (done ++ [(og0, o0)]) hm rm heq' ?_ ?_ hm2 rm2 hok
        · intro g
          rw [firstIn_append_not_considered hx, hinvh]
        · intro og c
          rw [rmSpec_append_not_considered hx, hinvr]
      · rename_i bs hbs
        have hx : consideredHashable d o0 = true := by
          simp [consideredHashable, isImageStream, himg, hbs]
        have hdg : digestOfObj o0 = some (sha256 bs) := by
          simp [digestOfObj, hbs]
        split at hok
        · -- fresh digest: new canonical recorded
          rename_i hhm
          have hnone : firstIn d done (sha256 bs) = none := by
            rw [← hinvh]; exact hhm
          refine ih (done ++ [(og0, o0)]) _ rm heq' ?_ ?_ hm2 rm2 hok
          · intro g
            rw [firstIn_append_new hx hdg hnone g, hmLookup_cons]
            by_cases hg : sha256 bs = g <;> simp [hg, hinvh]
          · intro og c
            rw [rmSpec_append_new hx hdg hnone, hinvr]
        · rename_i c0 hc0
          have hsome : firstIn d done (sha256 bs) = some c0 := by
            rw [← hinvh]; exact hc0
          split at hok
          · -- same identity as the canonical: skipped
            rename_i heqc
            refine ih (done ++ [(og0, o0)]) hm rm heq' ?_ ?_ hm2 rm2 hok
            · intro g
              rw [firstIn_append_dup hdg hsome, hinvh]
            · intro og c
              rw [rmSpec_append_dup hx hdg hsome]
              rw [hinvr]
              constructor
              · exact Or.inl
              · rintro (h | ⟨hog, hcc, hne⟩)
                · exact h
                · exact absurd heqc.symm (by simpa [hog] using hne)
          · -- a later duplicate: replacement entry recorded
            rename_i hnec
            have hkey : og0 ∉ done.map (fun p => p.1) :=
              key_not_in_done (heq ▸ hnd)
            refine ih (done ++ [(og0, o0)]) hm _ heq' ?_ ?_ hm2 rm2 hok
            · intro g
              rw [firstIn_append_dup hdg hsome, hinvh]
            · intro og c
              rw [rmSpec_append_dup hx hdg hsome]
              simp only [rmInsert]
              rw [rmLookup_cons]
              by_cases hoo : og0 = og
              · subst hoo
                have hnospec : ¬ RmSpec d done og0 c := fun h =>
                  hkey (rmSpec_key_mem h)
                rw [if_pos rfl]
                constructor
                · intro h
                  have hcc : c0 = c := by injection h
                  exact Or.inr ⟨rfl, hcc.symm, fun h2 => hnec h2.symm⟩
                · rintro (h | ⟨_, hcc, _⟩)
                  · exact absurd h hnospec
                  · rw [hcc]
              · simp only [if_neg hoo]
                rw [hinvr]
                constructor
                · exact Or.inl
                · rintro (h | ⟨hog, _, _⟩)
                  · exact h
                  · exact absurd hog.symm hoo

/-- The maps `_deduplicate_images` builds, characterized against the
whole object table. -/
theorem buildImageMaps_inv (d : Doc) (hm : HashMap) (rm : ReplMap)
    (hnd : (d.objects.map (fun p => p.1)).Nodup)
    (hok : buildImageMaps d = .ok (hm, rm)) :
    (∀ g, hmLookup hm g = firstWithDigest d g) ∧
    (∀ og c, rmLookup rm og = some c ↔ RmSpec d d.objects og c) := by
  have h := buildMaps_characterization d hnd d.objects [] [] []
    (by simp) (fun g => by simp [hmLookup, firstIn])
    (fun og c => by
      simp only [rmLookup, List.find?]
      constructor
      · intro h; simp at h
      · rintro ⟨o, g, hmem, _⟩; simp at hmem)
    hm rm hok
  exact ⟨fun g => h.1 g, h.2⟩

theorem isImageStream_true_iff {d : Doc} {o : PdfObj} :
    isImageStream d o = true ↔ imageCheck d o = .ok true := by
  unfold isImageStream
  cases h : imageCheck d o with
  | error e => simp
  | ok b => cases b <;> simp

theorem imageCheck_ok_true_iff {d : Doc} {o : PdfObj} :
    imageCheck d o = .ok true ↔
      ∃ sd dec raw sp sv, o = .stream sd dec raw sp ∧
        dictGetResolved d sd "/Subtype" = .ok (some sv) ∧
        containsSub "/Image" (strOfVal sv) = true := by
  cases o with
  | direct v =>
    constructor
    · intro h
      exact absurd h (by simp [imageCheck])
    · rintro ⟨sd, dec, raw, sp, sv, h, _⟩
      exact PdfObj.noConfusion h
  | stream sd dec raw sp =>
    have heq : imageCheck d (PdfObj.stream sd dec raw sp) =
        (match dictGetResolved d sd "/Subtype" with
         | .error _ => .error ()
         | .ok none => .ok false
         | .ok (some v) => .ok (containsSub "/Image" (strOfVal v))) := rfl
    rw [heq]
    cases hsub : dictGetResolved d sd "/Subtype" with
    | error e =>
      dsimp only
      constructor
      · intro h; exact Except.noConfusion h
      · rintro ⟨sd2, dec2, raw2, sp2, sv, heq2, hget, _⟩
        injection heq2 with h1 h2 h3 h4
        subst h1
        rw [hsub] at hget
        exact Except.noConfusion hget
    | ok osv =>
      cases osv with
      | none =>
        dsimp only
        constructor
        · intro h; injection h with h2; exact Bool.noConfusion h2
        · rintro ⟨sd2, dec2, raw2, sp2, sv, heq2, hget, _⟩
          injection heq2 with h1 h2 h3 h4
          subst h1
          rw [hsub] at hget
          injection hget with h5
          exact Option.noConfusion h5
      | some v =>
        dsimp only
        constructor
        · intro h
          injection h with h2
          exact ⟨sd, dec, raw, sp, v, rfl, hsub, h2⟩
        · rintro ⟨sd2, dec2, raw2, sp2, sv, heq2, hget, hcon⟩
          injection heq2 with h1 h2 h3 h4
          subst h1
          rw [hsub] at hget
          injection hget with h5
          injection h5 with h6
          rw [h6, hcon]

/-- C6: the replacement map holds exactly the hashable image streams whose
digest was first carried by a different, earlier-enumerated object, each
mapped to that first carrier; it never maps an identity to itself. -/
theorem c6_replacement_map_exactly_later_duplicates
    (d : Doc) (hm : HashMap) (rm : ReplMap)
    (hnd : (d.objects.map (fun p => p.1)).Nodup)
    (hok : buildImageMaps d = .ok (hm, rm)) :
    (∀ og c, rmLookup rm og = some c → og ≠ c) ∧
    (∀ og c, rmLookup rm og = some c ↔
      ∃ o g, d.find og = some o ∧ consideredHashable d o = true ∧
        digestOfObj o = some g ∧ firstWithDigest d g = some c ∧ c ≠ og) := by
  obtain ⟨hh, hr⟩ := buildImageMaps_inv d hm rm hnd hok
  constructor
  · intro og c h
    obtain ⟨o, g, _, _, _, _, hne⟩ := (hr og c).mp h
    exact fun he => hne he.symm
  · intro og c
    rw [hr og c]
    constructor
    · rintro ⟨o, g, hmem, hc2, hd2, hfi, hne⟩
      exact ⟨o, g, mem_find_nodup hnd hmem, hc2, hd2, hfi, hne⟩
    · rintro ⟨o, g, hfind, hc2, hd2, hfi, hne⟩
      exact ⟨o, g, find_mem hfind, hc2, hd2, hfi, hne⟩

/-- C6 witness: the duplicate pair instantiated concretely - `(2, 0)` is
mapped, and never to itself. -/
theorem c6_witness :
    rmLookup pairRm (2, 0) = some (1, 0) ∧ ((2, 0) : ObjGen) ≠ (1, 0) :=
  ⟨by rfl,
   (c6_replacement_map_exactly_later_duplicates pairDoc pairHm pairRm
     (by decide) (by rfl)).1 (2, 0) (1, 0) (by rfl)⟩

/-- C2 (amended): every replacement-map entry maps a duplicate to a
canonical carrying the same content digest, so each individual rewritten
reference preserves the digest of the image it denotes. -/
theorem c2_replacement_map_digest_preserving
    (d : Doc) (hm : HashMap) (rm : ReplMap) (og c : ObjGen)
    (hnd : (d.objects.map (fun p => p.1)).Nodup)
    (hok : buildImageMaps d = .ok (hm, rm))
    (hmem : rmLookup rm og = some c) :
    ∃ o o' g, d.find og = some o ∧ d.find c = some o' ∧
      digestOfObj o = some g ∧ digestOfObj o' = some g := by
  obtain ⟨hh, hr⟩ := buildImageMaps_inv d hm rm hnd hok
  obtain ⟨o, g, hmeml, hc2, hd2, hfi, hne⟩ := (hr og c).mp hmem
  obtain ⟨o', hmem', hc', hd'⟩ := firstIn_mem hfi
  exact ⟨o, o', g, mem_find_nodup hnd hmeml, mem_find_nodup hnd hmem', hd2, hd'⟩

/-- C2 witness: digest preservation on the concrete duplicate pair. -/
theorem c2_witness :
    ∃ o o' g, pairDoc.find (2, 0) = some o ∧ pairDoc.find (1, 0) = some o' ∧
      digestOfObj o = some g ∧ digestOfObj o' = some g :=
  c2_replacement_map_digest_preserving pairDoc pairHm pairRm (2, 0) (1, 0)
    (by decide) (by rfl) (by rfl)

/-- C9 (amended): an unhashable stream is excluded from deduplication
entirely - never a replacement-map key, never a canonical in the hash
table, never a replacement target - while the rest of the enumeration is
still processed. -/
theorem c9_unhashable_never_deduplicated
    (d : Doc) (hm : HashMap) (rm : ReplMap) (og : ObjGen) (o : PdfObj)
    (hnd : (d.objects.map (fun p => p.1)).Nodup)
    (hok : buildImageMaps d = .ok (hm, rm))
    (hfind : d.find og = some o)
    (hunh : streamContentBytes o = none) :
    rmLookup rm og = none ∧ (∀ g, hmLookup hm g ≠ some og) ∧
    (∀ og2 c, rmLookup rm og2 = some c → c ≠ og) := by
  obtain ⟨hh, hr⟩ := buildImageMaps_inv d hm rm hnd hok
  have hch : consideredHashable d o = false := by
    simp [consideredHashable, hunh]
  have hobj : ∀ o2, (og, o2) ∈ d.objects → o2 = o := by
    intro o2 hmem2
    have h2 := mem_find_nodup hnd hmem2
    rw [hfind] at h2
    injection h2 with h3
    exact h3.symm
  refine ⟨?_, ?_, ?_⟩
  · cases hrl : rmLookup rm og with
    | none => rfl
    | some c =>
      obtain ⟨o2, g, hmem2, hc2, _⟩ := (hr og c).mp hrl
      rw [hobj o2 hmem2] at hc2
      rw [hch] at hc2
      exact Bool.noConfusion hc2
  · intro g hg
    have hfw : firstWithDigest d g = some og := by rw [← hh g]; exact hg
    obtain ⟨o2, hmem2, hc2, _⟩ := firstIn_mem hfw
    rw [hobj o2 hmem2] at hc2
    rw [hch] at hc2
    exact Bool.noConfusion hc2
  · intro og2 c hrl he
    rw [he] at hrl
    obtain ⟨o2, g, _, _, _, hfi, _⟩ := (hr og2 og).mp hrl
    obtain ⟨o3, hmem3, hc3, _⟩ := firstIn_mem hfi
    rw [hobj o3 hmem3] at hc3
    rw [hch] at hc3
    exact Bool.noConfusion hc3

/-- C9 witness: the unhashable image `(1, 0)` of `unhashDoc` is untouched
while the other two images are still deduplicated. -/
theorem c9_witness :
    rmLookup unhashRm (1, 0) = none ∧
    (∀ g, hmLookup unhashHm g ≠ some (1, 0)) ∧
    (∀ og2 c, rmLookup unhashRm og2 = some c → c ≠ (1, 0)) :=
  c9_unhashable_never_deduplicated unhashDoc unhashHm unhashRm (1, 0)
    (.stream [("/Subtype", .name "/Image")] [5] none false)
    (by decide) (by rfl) (by rfl) (by rfl)

/-- C10: classification is by substring match on the Subtype string.
During image deduplication an object participates (as canonical or mapped
duplicate) exactly when it is a stream whose resolved `Subtype` string
contains "/Image" (and it is hashable); a stream with no `Subtype` entry
participates in neither map.  During sanitization, an XObject stream with
no `Subtype` entry, or whose `Subtype` string does not contain "/Form",
is passed over without any effect; the concrete run on `c8doc` shows a
"/Form" stream being hashed. -/
theorem c10_subtype_substring_classification
    (d : Doc) (hm : HashMap) (rm : ReplMap)
    (hnd : (d.objects.map (fun p => p.1)).Nodup)
    (hok : buildImageMaps d = .ok (hm, rm)) :
    (∀ og, ((∃ g, hmLookup hm g = some og) ∨ (∃ c, rmLookup rm og = some c)) →
      ∃ o, d.find og = some o ∧
        ∃ sd dec raw sp sv, o = .stream sd dec raw sp ∧
          dictGetResolved d sd "/Subtype" = .ok (some sv) ∧
          containsSub "/Image" (strOfVal sv) = true) ∧
    (∀ og o, d.find og = some o → imageCheck d o = .ok true →
      (streamContentBytes o).isSome = true →
      ((∃ g, hmLookup hm g = some og) ∨ (∃ c, rmLookup rm og = some c))) ∧
    (∀ og sd dec raw sp, d.find og = some (.stream sd dec raw sp) →
      lookupKey sd "/Subtype" = none →
      rmLookup rm og = none ∧ ∀ g, hmLookup hm g ≠ some og) ∧
    (∀ fuel doc fhm xloc k ks xes stored ogx sd dec raw sp,
      entriesAtLoc doc xloc = some xes → lookupKey xes k = some stored →
      readVal doc stored = .ok (.ind ogx (.stream sd dec raw sp)) →
      lookupKey sd "/Subtype" = none →
      sanF (fuel + 1) doc fhm (.xkeys xloc (k :: ks)) =
        sanF fuel doc fhm (.xkeys xloc ks)) ∧
    (∀ fuel doc fhm xloc k ks xes stored ogx sd dec raw sp sv,
      entriesAtLoc doc xloc = some xes → lookupKey xes k = some stored →
      readVal doc stored = .ok (.ind ogx (.stream sd dec raw sp)) →
      dictGetResolved doc sd "/Subtype" = .ok (some sv) →
      containsSub "/Form" (strOfVal sv) = false →
      sanF (fuel + 1) doc fhm (.xkeys xloc (k :: ks)) =
        sanF fuel doc fhm (.xkeys xloc ks)) ∧
    hmLookup c8fhm (sha256 [7]) = some (3, 0) := by
  obtain ⟨hh, hr⟩ := buildImageMaps_inv d hm rm hnd hok
  have hpart : ∀ og, ((∃ g, hmLookup hm g = some og) ∨
      (∃ c, rmLookup rm og = some c)) →
      ∃ o, (og, o) ∈ d.objects ∧ consideredHashable d o = true := by
    intro og h
    rcases h with ⟨g, hg⟩ | ⟨c, hc⟩
    · have hfw : firstWithDigest d g = some og := by rw [← hh g]; exact hg
      obtain ⟨o, hmem, hcon, _⟩ := firstIn_mem hfw
      exact ⟨o, hmem, hcon⟩
    · obtain ⟨o, g, hmem, hcon, _⟩ := (hr og c).mp hc
      exact ⟨o, hmem, hcon⟩
  have hclass : ∀ og, ((∃ g, hmLookup hm g = some og) ∨
      (∃ c, rmLookup rm og = some c)) →
      ∃ o, d.find og = some o ∧
        ∃ sd dec raw sp sv, o = .stream sd dec raw sp ∧
          dictGetResolved d sd "/Subtype" = .ok (some sv) ∧
          containsSub "/Image" (strOfVal sv) = true := by
    intro og h
    obtain ⟨o, hmem, hcon⟩ := hpart og h
    have himg : imageCheck d o = .ok true := by
      rw [← isImageStream_true_iff]
      simp only [consideredHashable, Bool.and_eq_true] at hcon
      exact hcon.1
    obtain ⟨sd, dec, raw, sp, sv, ho, hget, hsub⟩ := imageCheck_ok_true_iff.mp himg
    exact ⟨o, mem_find_nodup hnd hmem, sd, dec, raw, sp, sv, ho, hget, hsub⟩
  refine ⟨hclass, ?_, ?_, ?_, ?_, by decide⟩
  · intro og o hfind himg hsome
    have hcon : consideredHashable d o = true := by
      simp only [consideredHashable, Bool.and_eq_true]
      exact ⟨isImageStream_true_iff.mpr himg, hsome⟩
    obtain ⟨bs, hbs⟩ := Option.isSome_iff_exists.mp hsome
    have hdg : digestOfObj o = some (sha256 bs) := by simp [digestOfObj, hbs]
    obtain ⟨c, hc⟩ := firstIn_isSome (find_mem hfind) hcon hdg
    by_cases hco : c = og
    · exact Or.inl ⟨sha256 bs, by rw [hh, ← hco]; exact hc⟩
    · exact Or.inr ⟨c, (hr og c).mpr ⟨o, sha256 bs, find_mem hfind, hcon, hdg, hc, hco⟩⟩
  · intro og sd dec raw sp hfind hsub
    have hchk : imageCheck d (PdfObj.stream sd dec raw sp) = .ok false := by
      have h5 : dictGetResolved d sd "/Subtype" = .ok none := by
        simp [dictGetResolved, hsub]
      simp [imageCheck, h5]
    constructor
    · cases hrl : rmLookup rm og with
      | none => rfl
      | some c =>
        exfalso
        obtain ⟨o, hfind2, sd2, dec2, raw2, sp2, sv, ho, hget, _⟩ :=
          hclass og (Or.inr ⟨c, hrl⟩)
        rw [hfind] at hfind2
        injection hfind2 with ho2
        rw [← ho2] at ho
        injection ho with e1 e2 e3 e4
        rw [← e1] at hget
        have h5 : dictGetResolved d sd "/Subtype" = .ok none := by
          simp [dictGetResolved, hsub]
        rw [h5] at hget
        injection hget with h6
        exact Option.noConfusion h6
    · intro g hg
      have hfw : firstWithDigest d g = some og := by rw [← hh g]; exact hg
      obtain ⟨o, hmem, hcon, _⟩ := firstIn_mem hfw
      have hfind2 := mem_find_nodup hnd hmem
      rw [hfind] at hfind2
      injection hfind2 with ho2
      rw [← ho2] at hcon
      simp only [consideredHashable, Bool.and_eq_true] at hcon
      have himg := isImageStream_true_iff.mp hcon.1
      rw [hchk] at himg
      injection himg with h6
      exact Bool.noConfusion h6
  · intro fuel doc fhm xloc k ks xes stored ogx sd dec raw sp h1 h2 h3 h4
    have h5 : dictGetResolved doc sd "/Subtype" = .ok none := by
      simp [dictGetResolved, h4]
    simp only [sanF, h1, h2, h3, h5]
  · intro fuel doc fhm xloc k ks xes stored ogx sd dec raw sp sv h1 h2 h3 h4 h5
    simp only [sanF, h1, h2, h3, h4, h5]
    simp

/-- C10 witness: the duplicate image `(2, 0)` of `pairDoc` is in the
replacement map, so it is classified as an image stream by the Subtype
substring rule. -/
theorem c10_witness :
    ∃ o, pairDoc.find (2, 0) = some o ∧
      ∃ sd dec raw sp sv, o = .stream sd dec raw sp ∧
        dictGetResolved pairDoc sd "/Subtype" = .ok (some sv) ∧
        containsSub "/Image" (strOfVal sv) = true :=
  (c10_subtype_substring_classification pairDoc pairHm pairRm
    (by decide) (by rfl)).1 (2, 0) (Or.inr ⟨(1, 0), by rfl⟩)

/-! ### Walk invariants: visited-set placeholder exclusion and payload frames -/

/-- The walk's visited set never picks up the placeholder identity
`(0, 0)`: the guard excludes it before any insertion. -/
theorem walkF_no_placeholder (rm : ReplMap) :
    ∀ fuel (st : WSt) task, ((0, 0) : ObjGen) ∉ st.2 →
      ((0, 0) : ObjGen) ∉ (walkF rm fuel st task).2 := by
  intro fuel
  induction fuel with
  | zero =>
    intro st task h
    simpa [walkF] using h
  | succ fuel ih =>
    intro st task h
    obtain ⟨doc, vis⟩ := st
    cases task with
    | start loc =>
      simp only [walkF]
      cases hp : loc.path.isEmpty with
      | true =>
        simp only [hp, if_true]
        by_cases hz : loc.og = ((0, 0) : ObjGen)
        · rw [if_pos hz]
          exact ih _ _ h
        · rw [if_neg hz]
          by_cases hv : loc.og ∈ vis
          · rw [if_pos hv]
            exact h
          · rw [if_neg hv]
            refine ih _ _ ?_
            simp only [List.mem_cons]
            rintro (h1 | h1)
            · exact hz h1.symm
            · exact h h1
      | false =>
        rw [if_pos (by simp)]
        exact ih _ _ h
    | disp loc =>
      simp only [walkF]
      split
      · exact ih _ _ h
      · exact ih _ _ h
      · exact h
    | keys loc ks =>
      cases ks with
      | nil => simpa [walkF] using h
      | cons k ks =>
        simp only [walkF]
        split
        · exact h
        · split
          · exact ih _ _ h
          · split
            · exact ih _ _ h
            · split
              · exact ih _ _ h
              · exact ih _ _ (ih _ _ h)
    | elems loc i len =>
      simp only [walkF]
      split
      · exact h
      · split
        · split
          · exact h
          · split
            · exact h
            · split
              · exact ih _ _ h
              · exact ih _ _ (ih _ _ h)
        · exact h

theorem find_setObj_ne (d : Doc) (og0 : ObjGen) (o0 : PdfObj) (og : ObjGen)
    (h : ¬ og = og0) : (d.setObj og0 o0).find og = d.find og := by
  unfold Doc.setObj Doc.find
  simp only
  induction d.objects with
  | nil => rfl
  | cons q t ih =>
    simp only [List.map_cons]
    by_cases hq : q.1 = og0
    · rw [if_pos hq]
      rw [List.find?_cons, List.find?_cons]
      have h1 : ¬ ((og0, o0) : ObjGen × PdfObj).1 = og := by
        simp only
        intro he
        exact h he.symm
      have h2 : ¬ q.1 = og := by
        intro he
        rw [he] at hq
        exact h hq
      simp only [decide_eq_false h1, decide_eq_false h2]
      exact ih
    · rw [if_neg hq]
      rw [List.find?_cons, List.find?_cons]
      cases hd : decide (q.1 = og) with
      | true => rfl
      | false => exact ih

theorem find_setObj_self (d : Doc) (og0 : ObjGen) (o0 : PdfObj) :
    (d.setObj og0 o0).find og0 = (d.find og0).map (fun _ => o0) := by
  unfold Doc.setObj Doc.find
  simp only
  induction d.objects with
  | nil => rfl
  | cons q t ih =>
    simp only [List.map_cons]
    by_cases hq : q.1 = og0
    · rw [if_pos hq]
      rw [List.find?_cons, List.find?_cons]
      have h1 : ((og0, o0) : ObjGen × PdfObj).1 = og0 := rfl
      simp [hq, h1]
    · rw [if_neg hq]
      rw [List.find?_cons, List.find?_cons]
      simp only [decide_eq_false hq]
      exact ih

/-- Rebuilding an object around an updated root value keeps its payload:
the stream fields other than the dictionary are copied verbatim. -/
theorem scb_setRootVal (o : PdfObj) (v : PdfVal) :
    streamContentBytes (setRootVal o v) = streamContentBytes o := by
  cases o <;> cases v <;> rfl

/-- The single mutation primitive never changes any stream's content
bytes. -/
theorem contentOf_updateAtLoc (d : Doc) (loc : Loc) (f : PdfVal → PdfVal)
    (og : ObjGen) :
    (((updateAtLoc d loc f).find og).bind streamContentBytes) =
      ((d.find og).bind streamContentBytes) := by
  unfold updateAtLoc
  cases hf : d.find loc.og with
  | none => rfl
  | some o =>
    by_cases hog : og = loc.og
    · subst hog
      rw [find_setObj_self, hf]
      simp only [Option.map_some', Option.some_bind]
      exact scb_setRootVal o _
    · rw [find_setObj_ne _ _ _ _ hog]

/-- The graph walk never changes any stream's content bytes. -/
theorem walkF_preserves_content (rm : ReplMap) :
    ∀ fuel (st : WSt) task og,
      (((walkF rm fuel st task).1.find og).bind streamContentBytes) =
        ((st.1.find og).bind streamContentBytes) := by
  intro fuel
  induction fuel with
  | zero => intro st task og; rfl
  | succ fuel ih =>
    intro st task og
    obtain ⟨doc, vis⟩ := st
    cases task with
    | start loc =>
      simp only [walkF]
      cases hp : loc.path.isEmpty with
      | true =>
        simp only [hp, if_true]
        by_cases hz : loc.og = ((0, 0) : ObjGen)
        · rw [if_pos hz]; exact ih _ _ og
        · rw [if_neg hz]
          by_cases hv : loc.og ∈ vis
          · rw [if_pos hv]
          · rw [if_neg hv]; exact ih _ _ og
      | false =>
        rw [if_pos (by simp)]
        exact ih _ _ og
    | disp loc =>
      simp only [walkF]
      split
      · exact ih _ _ og
      · exact ih _ _ og
      · rfl
    | keys loc ks =>
      cases ks with
      | nil => simp [walkF]
      | cons k ks =>
        simp only [walkF]
        split
        · rfl
        · split
          · exact ih _ _ og
          · split
            · exact ih _ _ og
            · split
              · rw [ih _ _ og]
                exact contentOf_updateAtLoc doc loc _ og
              · rw [ih _ _ og, ih _ _ og]
    | elems loc i len =>
      simp only [walkF]
      split
      · rfl
      · split
        · split
          · rfl
          · split
            · rfl
            · split
              · rw [ih _ _ og]
                exact contentOf_updateAtLoc doc loc _ og
              · rw [ih _ _ og, ih _ _ og]
        · rfl

theorem foldWalk_preserves_content (rm : ReplMap) (F : Nat) :
    ∀ (pgs : List ObjGen) (st : WSt) og,
      (((pgs.foldl (fun s og2 => walkLoc rm F s ⟨og2, []⟩) st).1.find og).bind
        streamContentBytes) = ((st.1.find og).bind streamContentBytes) := by
  intro pgs
  induction pgs with
  | nil => intro st og; rfl
  | cons p t ih =>
    intro st og
    simp only [List.foldl_cons]
    rw [ih]
    exact walkF_preserves_content rm F st _ og

theorem dedupImages_preserves_content (d d1 : Doc)
    (h : dedupImages d = .ok d1) (og : ObjGen) :
    ((d1.find og).bind streamContentBytes) =
      ((d.find og).bind streamContentBytes) := by
  unfold dedupImages at h
  split at h
  · exact Except.noConfusion h
  · split at h
    · injection h with h2
      rw [← h2]
    · injection h with h2
      rw [← h2]
      exact foldWalk_preserves_content _ _ _ _ og

theorem optimize_pipeline_order (d dOut : Doc) (h : optimizePdf d = .ok dOut) :
    ∃ d1 d2 fhm, dedupImages d = .ok d1 ∧ stripAndDedup d1 = .ok (d2, fhm) ∧
      dOut = removeUnreferenced d2 := by
  unfold optimizePdf at h
  split at h
  · exact Except.noConfusion h
  · rename_i d1 h1
    split at h
    · exact Except.noConfusion h
    · rename_i d2 fhm h2
      injection h with h3
      exact ⟨d1, d2, fhm, h1, h2, h3.symm⟩

/-- C7: the visited set used for revisit detection never contains the
placeholder identity `(0, 0)` shared by all inline objects, so inline
structures are always descended into; concretely, on `c7doc` the rewrite
reaches a duplicate reference inside an inline dictionary three levels
deep, after another inline dictionary has already been traversed. -/
theorem c7_placeholder_excluded_and_deep_inline_descent :
    (∀ rm fuel (st : WSt) loc, ((0, 0) : ObjGen) ∉ st.2 →
      ((0, 0) : ObjGen) ∉ (walkLoc rm fuel st loc).2) ∧
    isRefTo (getAtLoc c7after
      ⟨(3, 0), [.key "/R", .key "/P", .key "/X", .key "/Im"]⟩) (1, 0) = true := by
  constructor
  · intro rm fuel st loc h
    exact walkF_no_placeholder rm fuel st _ h
  · decide

/-- C7 witness: the invariant instantiated on a concrete walk of
`c7doc`. -/
theorem c7_witness :
    ((0, 0) : ObjGen) ∉ (walkLoc [((2, 0), (1, 0))] 50 (c7doc, []) ⟨(3, 0), []⟩).2 :=
  c7_placeholder_excluded_and_deep_inline_descent.1 [((2, 0), (1, 0))] 50
    (c7doc, []) ⟨(3, 0), []⟩ (by decide)

/-- C8 (amended): the optimizer is the strict pipeline image dedup and
rewrite, then sanitizer, then the external sweep; and the rewrite phase
never changes any stream's content bytes, so no two forms can become
byte-identical only after image deduplication - form deduplication merges
the same byte-identical forms in either phase order (see the
counterexample theorem for the concrete demonstration). -/
theorem c8_pipeline_order_and_payload_preservation :
    (∀ d dOut, optimizePdf d = .ok dOut →
      ∃ d1 d2 fhm, dedupImages d = .ok d1 ∧ stripAndDedup d1 = .ok (d2, fhm) ∧
        dOut = removeUnreferenced d2) ∧
    (∀ d d1, dedupImages d = .ok d1 →
      ∀ og, ((d1.find og).bind streamContentBytes) =
        ((d.find og).bind streamContentBytes)) :=
  ⟨optimize_pipeline_order, dedupImages_preserves_content⟩

/-- C8 witness: the form `(3, 0)` of `c8doc` has the same content bytes
after the rewrite phase as before it. -/
theorem c8_witness :
    ((docOf (dedupImages c8doc)).find (3, 0)).bind streamContentBytes =
      (c8doc.find (3, 0)).bind streamContentBytes :=
  c8_pipeline_order_and_payload_preservation.2 c8doc (docOf (dedupImages c8doc))
    (by rfl) (3, 0)

/-- C1 (code bug): two streams with bit-identical decoded payload bytes
can receive different digests: stream A's raw stored (encoded) bytes are
readable, so the primary path hashes `[9, 9]`, while stream B falls back
to the decoded bytes `[1, 2]`; SHA-256 of the two differs, contradicting
the claimed encoding-independence of the digest. -/
theorem c1_identical_decoded_content_digests_differ :
    streamDecoded c1A = streamDecoded c1B ∧ digestOfObj c1A ≠ digestOfObj c1B := by
  decide

/-- C2 (counterexample): optimizing `c2doc` loses a reachable image
digest.  The page's image is a duplicate whose transparency mask has
payload `[3]`; the rewrite redirects the page to the canonical copy, whose
mask has payload `[2]`, so `sha256 [3]` is reachable before but not after
optimization. -/
theorem c2_reachable_digest_set_not_preserved :
    (optimizePdf c2doc).isOk = true ∧
    sha256 [3] ∈ reachImageDigests c2doc [(5, 0)] ∧
    sha256 [3] ∉ reachImageDigests c2after [(5, 0)] := by decide

/-- C3 (code bug): after the rewrite phase on `c3doc`, the page-reachable
canonical image `(3, 0)` still holds a reference to `(2, 0)`, which is a
key of the replacement map: the canonical object substituted for the
page's duplicate is never recursed into, so the mapped duplicate `(2, 0)`
keeps an inbound page-reachable reference. -/
theorem c3_mapped_duplicate_still_page_reachable :
    (dedupImages c3doc).isOk = true ∧
    rmLookup c3replMap (2, 0) = some (1, 0) ∧
    isRefTo (getAtLoc c3after ⟨(3, 0), [.key "/SMask"]⟩) (2, 0) = true ∧
    (3, 0) ∈ reachOgs c3after [(5, 0)] ∧
    (2, 0) ∈ reachOgs c3after [(5, 0)] := by decide

/-- C4 (counterexample): after optimizing `c4doc`, the form `(3, 0)` -
reachable from the page's resources only through a tiling pattern - still
has a ProcSet entry in its resources, because the sanitizer only recurses
through Form XObject entries; the page's own resources were cleaned. -/
theorem c4_pattern_nested_form_keeps_procset :
    (optimizePdf c4doc).isOk = true ∧
    (3, 0) ∈ reachOgs c4after [(1, 0)] ∧
    (entriesAtLoc c4after ⟨(3, 0), [.key "/Resources"]⟩).map
      (fun es => hasKey es "/ProcSet") = some true ∧
    (entriesAtLoc c4after ⟨(1, 0), [.key "/Resources"]⟩).map
      (fun es => hasKey es "/ProcSet") = some false := by decide

/-- C8 (counterexample): on `c8doc` the two forms' content bytes are
already identical before any image deduplication (the rewrite never
touches payload bytes), and running form deduplication first - the order
the claim says would not merge them - merges them just the same as the
real pipeline does. -/
theorem c8_swapped_phase_order_also_merges_forms :
    (c8doc.find (3, 0)).bind streamContentBytes = some [7] ∧
    (c8doc.find (4, 0)).bind streamContentBytes = some [7] ∧
    (stripAndDedup c8doc).isOk = true ∧
    isRefTo (getAtLoc c8swapped ⟨(6, 0), [.key "/Resources", .key "/XObject", .key "/F"]⟩)
      (3, 0) = true ∧
    (optimizePdf c8doc).isOk = true ∧
    isRefTo (getAtLoc c8real ⟨(6, 0), [.key "/Resources", .key "/XObject", .key "/F"]⟩)
      (3, 0) = true := by decide

/-- C9 (counterexample): one malformed XObject entry aborts the whole
optimizer pass: the sanitizer's `xobjects[key]` read is unguarded, so
`optimize_pdf` on `c9doc` raises instead of skipping the bad entry. -/
theorem c9_single_bad_entry_aborts_pass :
    (dedupImages c9doc).isOk = true ∧ (optimizePdf c9doc).isOk = false := by decide

/-- C5 (code bug): running the optimizer twice is observably different from
running it once on `c5doc`: the mask digest `sha256 [3]` is page-reachable
after one run but not after two, because the first run's rewrite leaves the
canonical image's own reference to a mapped duplicate in place and the
second run rewrites it. -/
theorem c5_second_run_changes_reachable_digests :
    (optimizePdf c5doc).isOk = true ∧ (optimizePdf c5once).isOk = true ∧
    sha256 [3] ∈ reachImageDigests c5once [(5, 0)] ∧
    sha256 [3] ∉ reachImageDigests c5twice [(5, 0)] := by decide


/-! ### Sanitizer postcondition: key-level, value-level and
object-level preservation lemmas, and the main induction -/

/- Section A: key-level lemmas -/

theorem lookupKey_cons (q : String × PdfVal) (t : Entries) (k : String) :
    lookupKey (q :: t) k = if q.1 = k then some q.2 else lookupKey t k := by
  by_cases h : q.1 = k <;> simp [lookupKey, List.find?_cons, h]

theorem lookupKey_append (es1 es2 : Entries) (k : String) :
    lookupKey (es1 ++ es2) k =
      match lookupKey es1 k with
      | some v => some v
      | none => lookupKey es2 k := by
  induction es1 with
  | nil => simp [lookupKey]
  | cons q t ih =>
    rw [List.cons_append, lookupKey_cons, lookupKey_cons]
    by_cases h : q.1 = k
    · simp [h]
    · simp only [if_neg h]
      exact ih

theorem lookupKey_removeKey (es : Entries) (k k2 : String) :
    lookupKey (removeKey es k) k2 = if k2 = k then none else lookupKey es k2 := by
  induction es with
  | nil => by_cases h : k2 = k <;> simp [removeKey, lookupKey, h]
  | cons q t ih =>
    by_cases hq : q.1 = k
    · have hr : removeKey (q :: t) k = removeKey t k := by
        simp [removeKey, hq]
      rw [hr, ih]
      by_cases h2 : k2 = k
      · simp [h2]
      · have hq2 : ¬ q.1 = k2 := by
          rw [hq]; intro he; exact h2 he.symm
        simp [h2, lookupKey_cons, hq2]
    · have hr : removeKey (q :: t) k = q :: removeKey t k := by
        simp [removeKey, hq]
      rw [hr, lookupKey_cons, lookupKey_cons]
      by_cases h2 : q.1 = k2
      · have hne : ¬ k2 = k := by
          intro he
          rw [he] at h2
          exact hq h2
        simp [h2, hne]
      · simp only [if_neg h2]
        exact ih

theorem lk_map_self (es : Entries) (k : String) (v : PdfVal) :
    lookupKey (es.map (fun p => if p.1 = k then (k, v) else p)) k =
      (lookupKey es k).map (fun _ => v) := by
  induction es with
  | nil => rfl
  | cons q t ih =>
    simp only [List.map_cons]
    by_cases h : q.1 = k
    · rw [if_pos h, lookupKey_cons, lookupKey_cons]
      simp [h]
    · rw [if_neg h, lookupKey_cons, lookupKey_cons]
      simp only [if_neg h]
      exact ih

theorem lk_map_ne (es : Entries) (k k2 : String) (v : PdfVal) (h : ¬ k2 = k) :
    lookupKey (es.map (fun p => if p.1 = k then (k, v) else p)) k2 =
      lookupKey es k2 := by
  induction es with
  | nil => rfl
  | cons q t ih =>
    simp only [List.map_cons]
    by_cases hq : q.1 = k
    · rw [if_pos hq, lookupKey_cons, lookupKey_cons]
      have h1 : ¬ ((k, v) : String × PdfVal).1 = k2 := fun he => h he.symm
      have h2 : ¬ q.1 = k2 := by
        rw [hq]; intro he; exact h he.symm
      rw [if_neg h1, if_neg h2]
      exact ih
    · rw [if_neg hq, lookupKey_cons, lookupKey_cons]
      by_cases h2 : q.1 = k2
      · simp [h2]
      · rw [if_neg h2, if_neg h2]
        exact ih

theorem hasKey_iff_lookup (es : Entries) (k : String) :
    hasKey es k = (lookupKey es k).isSome := by
  unfold hasKey lookupKey
  cases es.find? (fun p => p.1 = k) <;> rfl

theorem lookupKey_setKey_self (es : Entries) (k : String) (v : PdfVal) :
    lookupKey (setKey es k v) k = some v := by
  unfold setKey
  by_cases h : hasKey es k
  · rw [if_pos h, lk_map_self]
    rw [hasKey_iff_lookup] at h
    cases hl : lookupKey es k with
    | none => rw [hl] at h; simp at h
    | some w => rfl
  · rw [if_neg h, lookupKey_append]
    rw [hasKey_iff_lookup] at h
    cases hl : lookupKey es k with
    | none => simp [lookupKey_cons]
    | some w => rw [hl] at h; simp at h

theorem lookupKey_setKey_ne (es : Entries) (k k2 : String) (v : PdfVal)
    (h : ¬ k2 = k) : lookupKey (setKey es k v) k2 = lookupKey es k2 := by
  unfold setKey
  by_cases hh : hasKey es k
  · rw [if_pos hh]
    exact lk_map_ne es k k2 v h
  · rw [if_neg hh, lookupKey_append]
    cases hl : lookupKey es k2 with
    | some w => rfl
    | none =>
      have h1 : ¬ ((k, v) : String × PdfVal).1 = k2 := fun he => h he.symm
      simp [lookupKey_cons, h1, lookupKey]

theorem hasKey_removeKey_self (es : Entries) (k : String) :
    hasKey (removeKey es k) k = false := by
  rw [hasKey_iff_lookup, lookupKey_removeKey]
  simp

theorem hasKey_removeKey_ne (es : Entries) (k k2 : String) (h : ¬ k2 = k) :
    hasKey (removeKey es k) k2 = hasKey es k2 := by
  rw [hasKey_iff_lookup, lookupKey_removeKey, if_neg h, hasKey_iff_lookup]

theorem hasKey_setKey_ne (es : Entries) (k k2 : String) (v : PdfVal)
    (h : ¬ k2 = k) : hasKey (setKey es k v) k2 = hasKey es k2 := by
  rw [hasKey_iff_lookup, lookupKey_setKey_ne es k k2 v h, hasKey_iff_lookup]

/- Section B: modValAt lemmas, parametrized over the mutation function -/

theorem lk_mapEntry_self (es : Entries) (k : String) (g : PdfVal → PdfVal) :
    lookupKey (es.map (fun q => if q.1 = k then (k, g q.2) else q)) k =
      (lookupKey es k).map g := by
  induction es with
  | nil => rfl
  | cons q t ih =>
    simp only [List.map_cons]
    by_cases h : q.1 = k
    · rw [if_pos h, lookupKey_cons, lookupKey_cons]
      simp [h]
    · rw [if_neg h, lookupKey_cons, lookupKey_cons]
      simp only [if_neg h]
      exact ih

theorem lk_mapEntry_ne (es : Entries) (k k2 : String) (g : PdfVal → PdfVal)
    (h : ¬ k2 = k) :
    lookupKey (es.map (fun q => if q.1 = k then (k, g q.2) else q)) k2 =
      lookupKey es k2 := by
  induction es with
  | nil => rfl
  | cons q t ih =>
    simp only [List.map_cons]
    by_cases hq : q.1 = k
    · rw [if_pos hq, lookupKey_cons, lookupKey_cons]
      have h1 : ¬ (k, g q.2).1 = k2 := fun he => h he.symm
      have h2 : ¬ q.1 = k2 := by
        rw [hq]; intro he; exact h he.symm
      rw [if_neg h1, if_neg h2]
      exact ih
    · rw [if_neg hq, lookupKey_cons, lookupKey_cons]
      by_cases h2 : q.1 = k2
      · simp [h2]
      · rw [if_neg h2, if_neg h2]
        exact ih

theorem hasKey_mapEntry (es : Entries) (k k2 : String) (g : PdfVal → PdfVal) :
    hasKey (es.map (fun q => if q.1 = k then (k, g q.2) else q)) k2 =
      hasKey es k2 := by
  by_cases h : k2 = k
  · subst h
    rw [hasKey_iff_lookup, hasKey_iff_lookup, lk_mapEntry_self]
    cases lookupKey es k2 <;> rfl
  · rw [hasKey_iff_lookup, hasKey_iff_lookup, lk_mapEntry_ne es k k2 g h]

theorem get?_mapIdxCond (es : List PdfVal) (i : Nat) (g : PdfVal → PdfVal) :
    (es.mapIdx (fun j v => if j = i then g v else v)).get? i =
      (es.get? i).map (fun v => if i = i then g v else v) := by
  rw [List.get?_eq_getElem?, List.get?_eq_getElem?, List.getElem?_mapIdx]

theorem get?_mapIdxCond_ne (es : List PdfVal) (i j : Nat) (g : PdfVal → PdfVal)
    (h : ¬ j = i) :
    (es.mapIdx (fun j2 v => if j2 = i then g v else v)).get? j = es.get? j := by
  rw [List.get?_eq_getElem?, List.get?_eq_getElem?, List.getElem?_mapIdx]
  cases es[j]? <;> simp [h]

theorem valAt_modValAt_self :
    ∀ (p : List Step) (root : PdfVal) (f : PdfVal → PdfVal),
      valAt (modValAt root p f) p = (valAt root p).map f := by
  intro p
  induction p with
  | nil => intro root f; simp [valAt, modValAt]
  | cons s p ih =>
    intro root f
    cases s with
    | key k =>
      cases root with
      | dict es =>
        have hL : valAt (modValAt (PdfVal.dict es) (Step.key k :: p) f)
            (Step.key k :: p) =
            (lookupKey (es.map (fun q => if q.1 = k then (k, modValAt q.2 p f) else q)) k).bind
              (fun v => valAt v p) := rfl
        have hR : valAt (PdfVal.dict es) (Step.key k :: p) =
            (lookupKey es k).bind (fun v => valAt v p) := rfl
        rw [hL, hR]
        have hmap := lk_mapEntry_self es k (fun v => modValAt v p f)
        simp only at hmap
        rw [hmap]
        cases lookupKey es k with
        | none => rfl
        | some v =>
          simp only [Option.map_some', Option.some_bind]
          exact ih v f
      | ref og => rfl
      | arr es => rfl
      | name s2 => rfl
      | int n => rfl
      | null => rfl
      | bad => rfl
    | idx i =>
      cases root with
      | arr es =>
        have hL : valAt (modValAt (PdfVal.arr es) (Step.idx i :: p) f)
            (Step.idx i :: p) =
            ((es.mapIdx (fun j v => if j = i then modValAt v p f else v)).get? i).bind
              (fun v => valAt v p) := rfl
        have hR : valAt (PdfVal.arr es) (Step.idx i :: p) =
            (es.get? i).bind (fun v => valAt v p) := rfl
        rw [hL, hR]
        have hmap := get?_mapIdxCond es i (fun v => modValAt v p f)
        simp only [if_pos rfl] at hmap
        rw [hmap]
        cases es.get? i with
        | none => rfl
        | some v =>
          simp only [Option.map_some', Option.some_bind]
          exact ih v f
      | ref og => rfl
      | dict es => rfl
      | name s2 => rfl
      | int n => rfl
      | null => rfl
      | bad => rfl

theorem modValAt_pf :
    ∀ (p : List Step) (root : PdfVal) (f : PdfVal → PdfVal),
      (∀ v q, pfOpt (valAt v q) = true → pfOpt (valAt (f v) q) = true) →
      ∀ q, pfOpt (valAt root q) = true → pfOpt (valAt (modValAt root p f) q) = true := by
  intro p
  induction p with
  | nil =>
    intro root f hf q h
    cases root <;> exact hf _ q h
  | cons s p ih =>
    intro root f hf q h
    cases s with
    | key k =>
      cases root with
      | dict es =>
        have hm : modValAt (PdfVal.dict es) (Step.key k :: p) f =
            .dict (es.map (fun q2 => if q2.1 = k then (k, modValAt q2.2 p f) else q2)) := rfl
        rw [hm]
        cases q with
        | nil =>
          simp only [valAt, pfOpt]
          have hk := hasKey_mapEntry es k "/ProcSet" (fun v => modValAt v p f)
          simp only at hk
          rw [hk]
          simpa [valAt, pfOpt] using h
        | cons s2 q =>
          cases s2 with
          | key k2 =>
            have hL : valAt (PdfVal.dict (es.map (fun q2 =>
                if q2.1 = k then (k, modValAt q2.2 p f) else q2))) (Step.key k2 :: q) =
                (lookupKey (es.map (fun q2 => if q2.1 = k then (k, modValAt q2.2 p f) else q2)) k2).bind
                  (fun v => valAt v q) := rfl
            rw [hL]
            have hR : valAt (PdfVal.dict es) (Step.key k2 :: q) =
                (lookupKey es k2).bind (fun v => valAt v q) := rfl
            rw [hR] at h
            by_cases hk2 : k2 = k
            · subst hk2
              have hmap := lk_mapEntry_self es k2 (fun v => modValAt v p f)
              simp only at hmap
              rw [hmap]
              cases hlk : lookupKey es k2 with
              | none => simp [pfOpt]
              | some v =>
                rw [hlk] at h
                simp only [Option.map_some', Option.some_bind]
                exact ih v f hf q h
            · have hmap := lk_mapEntry_ne es k k2 (fun v => modValAt v p f) hk2
              simp only at hmap
              rw [hmap]
              exact h
          | idx i =>
            simp [valAt, pfOpt]
      | ref og => exact h
      | arr es => exact h
      | name s2 => exact h
      | int n => exact h
      | null => exact h
      | bad => exact h
    | idx i =>
      cases root with
      | arr es =>
        have hm : modValAt (PdfVal.arr es) (Step.idx i :: p) f =
            .arr (es.mapIdx (fun j v => if j = i then modValAt v p f else v)) := rfl
        rw [hm]
        cases q with
        | nil => simp [valAt, pfOpt]
        | cons s2 q =>
          cases s2 with
          | key k2 => simp [valAt, pfOpt]
          | idx j =>
            have hL : valAt (PdfVal.arr (es.mapIdx (fun j2 v =>
                if j2 = i then modValAt v p f else v))) (Step.idx j :: q) =
                ((es.mapIdx (fun j2 v => if j2 = i then modValAt v p f else v)).get? j).bind
                  (fun v => valAt v q) := rfl
            rw [hL]
            have hR : valAt (PdfVal.arr es) (Step.idx j :: q) =
                (es.get? j).bind (fun v => valAt v q) := rfl
            rw [hR] at h
            by_cases hj : j = i
            · subst hj
              have hmap := get?_mapIdxCond es j (fun v => modValAt v p f)
              simp only [if_pos rfl] at hmap
              rw [hmap]
              cases hlk : es.get? j with
              | none => simp [pfOpt]
              | some v =>
                rw [hlk] at h
                simp only [Option.map_some', Option.some_bind]
                exact ih v f hf q h
            · rw [get?_mapIdxCond_ne es i j (fun v => modValAt v p f) hj]
              exact h
      | ref og => exact h
      | dict es => exact h
      | name s2 => exact h
      | int n => exact h
      | null => exact h
      | bad => exact h

/- Section B2: shape stability -/

theorem modValAt_resShape_top (f : PdfVal → PdfVal)
    (hdict : ∀ es, ∃ es2, f (.dict es) = .dict es2 ∧
      lookupKey es2 "/Resources" = lookupKey es "/Resources")
    (hnd : ∀ (v : PdfVal), (∀ es, v ≠ PdfVal.dict es) → f v = v) :
    ∀ (w : PdfVal) (p : List Step),
      resShape (some (modValAt w p f)) = resShape (some w) := by
  have htop : ∀ v, resShape (some (f v)) = resShape (some v) := by
    intro v
    cases v with
    | dict es =>
      obtain ⟨es2, hf, _⟩ := hdict es
      rw [hf]
      rfl
    | ref og => rw [hnd _ (fun es h => PdfVal.noConfusion h)]
    | arr es => rw [hnd _ (fun es2 h => PdfVal.noConfusion h)]
    | name s2 => rw [hnd _ (fun es h => PdfVal.noConfusion h)]
    | int n => rw [hnd _ (fun es h => PdfVal.noConfusion h)]
    | null => rw [hnd _ (fun es h => PdfVal.noConfusion h)]
    | bad => rw [hnd _ (fun es h => PdfVal.noConfusion h)]
  intro w p
  cases p with
  | nil => cases w <;> exact htop _
  | cons s p =>
    cases s with
    | key k => cases w <;> rfl
    | idx i => cases w <;> rfl

/-- resShape determines the ref-shape test. -/
theorem kNSRVal_of_resShape (isStr : ObjGen → Bool) (w w2 : PdfVal)
    (h : resShape (some w2) = resShape (some w)) :
    (match w2 with
     | PdfVal.ref r => !(isStr r)
     | _ => true) =
    (match w with
     | PdfVal.ref r => !(isStr r)
     | _ => true) := by
  have hr : ∀ (a : PdfVal), resShape (some a) =
      some (match a with | PdfVal.ref r => some r | _ => none) := by
    intro a; cases a <;> rfl
  rw [hr, hr] at h
  injection h with h2
  cases w <;> cases w2 <;> simp_all

/-- The root-level `/Resources` lookup keeps its shape under mutation. -/
theorem modValAt_rootRes_shape (f : PdfVal → PdfVal)
    (hdict : ∀ es, ∃ es2, f (.dict es) = .dict es2 ∧
      lookupKey es2 "/Resources" = lookupKey es "/Resources")
    (hnd : ∀ (v : PdfVal), (∀ es, v ≠ PdfVal.dict es) → f v = v) :
    ∀ (root : PdfVal) (p : List Step),
      resShape (match modValAt root p f with
                | PdfVal.dict es => lookupKey es "/Resources"
                | _ => none) =
      resShape (match root with
                | PdfVal.dict es => lookupKey es "/Resources"
                | _ => none) := by
  intro root p
  cases root with
  | dict es =>
    cases p with
    | nil =>
      obtain ⟨es2, hf, hlk⟩ := hdict es
      show resShape (match f (.dict es) with
        | PdfVal.dict es3 => lookupKey es3 "/Resources"
        | _ => none) = resShape (lookupKey es "/Resources")
      rw [hf]
      show resShape (lookupKey es2 "/Resources") = _
      rw [hlk]
    | cons s p =>
      cases s with
      | key k =>
        show resShape (lookupKey (es.map (fun q =>
          if q.1 = k then (k, modValAt q.2 p f) else q)) "/Resources") = _
        by_cases hk : ("/Resources" : String) = k
        · subst hk
          have hmap := lk_mapEntry_self es "/Resources" (fun v => modValAt v p f)
          simp only at hmap
          rw [hmap]
          show resShape (Option.map (fun v => modValAt v p f)
            (lookupKey es "/Resources")) = resShape (lookupKey es "/Resources")
          cases hlk : lookupKey es "/Resources" with
          | none => rfl
          | some w =>
            simp only [Option.map_some']
            exact modValAt_resShape_top f hdict hnd w p
        · have hmap := lk_mapEntry_ne es k "/Resources" (fun v => modValAt v p f) hk
          simp only at hmap
          rw [hmap]
      | idx i => rfl
  | ref og =>
    cases p with
    | nil =>
      show resShape (match f (.ref og) with
        | PdfVal.dict es3 => lookupKey es3 "/Resources"
        | _ => none) = _
      rw [hnd _ (fun es h => PdfVal.noConfusion h)]
    | cons s p => cases s <;> rfl
  | arr es =>
    cases p with
    | nil =>
      show resShape (match f (.arr es) with
        | PdfVal.dict es3 => lookupKey es3 "/Resources"
        | _ => none) = _
      rw [hnd _ (fun es2 h => PdfVal.noConfusion h)]
    | cons s p => cases s <;> rfl
  | name s2 =>
    cases p with
    | nil =>
      show resShape (match f (.name s2) with
        | PdfVal.dict es3 => lookupKey es3 "/Resources"
        | _ => none) = _
      rw [hnd _ (fun es h => PdfVal.noConfusion h)]
    | cons s p => cases s <;> rfl
  | int n =>
    cases p with
    | nil =>
      show resShape (match f (.int n) with
        | PdfVal.dict es3 => lookupKey es3 "/Resources"
        | _ => none) = _
      rw [hnd _ (fun es h => PdfVal.noConfusion h)]
    | cons s p => cases s <;> rfl
  | null =>
    cases p with
    | nil =>
      show resShape (match f PdfVal.null with
        | PdfVal.dict es3 => lookupKey es3 "/Resources"
        | _ => none) = _
      rw [hnd _ (fun es h => PdfVal.noConfusion h)]
    | cons s p => cases s <;> rfl
  | bad =>
    cases p with
    | nil =>
      show resShape (match f PdfVal.bad with
        | PdfVal.dict es3 => lookupKey es3 "/Resources"
        | _ => none) = _
      rw [hnd _ (fun es h => PdfVal.noConfusion h)]
    | cons s p => cases s <;> rfl

/- Section C: keyRefAt machinery -/

theorem modValAt_ref_inv (f : PdfVal → PdfVal)
    (hdict : ∀ es, ∃ es2, f (.dict es) = .dict es2 ∧
      lookupKey es2 "/Resources" = lookupKey es "/Resources")
    (hnd : ∀ (v : PdfVal), (∀ es, v ≠ PdfVal.dict es) → f v = v)
    (w : PdfVal) (p : List Step) (r : ObjGen)
    (h : modValAt w p f = .ref r) : w = .ref r := by
  have hs := modValAt_resShape_top f hdict hnd w p
  rw [h] at hs
  cases w with
  | ref r2 =>
    have hs2 : (some (some r) : Option (Option ObjGen)) = some (some r2) := hs
    injection hs2 with h1
    injection h1 with h2
    rw [h2]
  | dict es =>
    have hs2 : (some (some r) : Option (Option ObjGen)) = some none := hs
    injection hs2 with h1
    exact absurd h1 (by simp)
  | arr es =>
    have hs2 : (some (some r) : Option (Option ObjGen)) = some none := hs
    injection hs2 with h1
    exact absurd h1 (by simp)
  | name s2 =>
    have hs2 : (some (some r) : Option (Option ObjGen)) = some none := hs
    injection hs2 with h1
    exact absurd h1 (by simp)
  | int n =>
    have hs2 : (some (some r) : Option (Option ObjGen)) = some none := hs
    injection hs2 with h1
    exact absurd h1 (by simp)
  | null =>
    have hs2 : (some (some r) : Option (Option ObjGen)) = some none := hs
    injection hs2 with h1
    exact absurd h1 (by simp)
  | bad =>
    have hs2 : (some (some r) : Option (Option ObjGen)) = some none := hs
    injection hs2 with h1
    exact absurd h1 (by simp)

theorem modValAt_keyRef (kk : String) :
    ∀ (p : List Step) (root : PdfVal) (f : PdfVal → PdfVal),
      (∀ (v : PdfVal), (∀ es, v ≠ PdfVal.dict es) → f v = v) →
      (∀ es, ∃ es2, f (.dict es) = .dict es2 ∧
        lookupKey es2 "/Resources" = lookupKey es "/Resources") →
      (∀ v q r, keyRefAt kk (valAt (f v) q) = some r →
        keyRefAt kk (valAt v q) = some r) →
      ∀ q r, keyRefAt kk (valAt (modValAt root p f) q) = some r →
        keyRefAt kk (valAt root q) = some r := by
  intro p
  induction p with
  | nil =>
    intro root f hnd hdict hfr q r h
    cases root <;> exact hfr _ q r h
  | cons s p ih =>
    intro root f hnd hdict hfr q r h
    cases s with
    | key k =>
      cases root with
      | dict es =>
        have hm : modValAt (PdfVal.dict es) (Step.key k :: p) f =
            .dict (es.map (fun q2 => if q2.1 = k then (k, modValAt q2.2 p f) else q2)) := rfl
        rw [hm] at h
        cases q with
        | nil =>
          have hv : valAt (PdfVal.dict (es.map (fun q2 =>
              if q2.1 = k then (k, modValAt q2.2 p f) else q2))) [] =
              some (PdfVal.dict (es.map (fun q2 =>
              if q2.1 = k then (k, modValAt q2.2 p f) else q2))) := rfl
          rw [hv] at h
          have hgoal : valAt (PdfVal.dict es) [] = some (PdfVal.dict es) := rfl
          rw [hgoal]
          by_cases hkk : kk = k
          · subst hkk
            have hmap := lk_mapEntry_self es kk (fun v => modValAt v p f)
            simp only at hmap
            have hred : keyRefAt kk (some (PdfVal.dict (es.map (fun q2 =>
                if q2.1 = kk then (kk, modValAt q2.2 p f) else q2)))) =
                (match lookupKey (es.map (fun q2 =>
                  if q2.1 = kk then (kk, modValAt q2.2 p f) else q2)) kk with
                 | some (.ref r2) => some r2
                 | _ => none) := rfl
            rw [hred, hmap] at h
            cases hlk : lookupKey es kk with
            | none =>
              rw [hlk] at h
              have h2 : (none : Option ObjGen) = some r := h
              exact absurd h2 (by simp)
            | some w =>
              rw [hlk] at h
              simp only [Option.map_some'] at h
              cases hw : modValAt w p f with
              | ref r2 =>
                rw [hw] at h
                have h2 : (some r2 : Option ObjGen) = some r := h
                injection h2 with h3
                subst h3
                have hwref := modValAt_ref_inv f hdict hnd w p r2 hw
                show (match lookupKey es kk with
                      | some (.ref r3) => some r3
                      | _ => none) = some r2
                rw [hlk, hwref]
              | dict es2 =>
                rw [hw] at h
                have h2 : (none : Option ObjGen) = some r := h
                exact absurd h2 (by simp)
              | arr es2 =>
                rw [hw] at h
                have h2 : (none : Option ObjGen) = some r := h
                exact absurd h2 (by simp)
              | name s3 =>
                rw [hw] at h
                have h2 : (none : Option ObjGen) = some r := h
                exact absurd h2 (by simp)
              | int n =>
                rw [hw] at h
                have h2 : (none : Option ObjGen) = some r := h
                exact absurd h2 (by simp)
              | null =>
                rw [hw] at h
                have h2 : (none : Option ObjGen) = some r := h
                exact absurd h2 (by simp)
              | bad =>
                rw [hw] at h
                have h2 : (none : Option ObjGen) = some r := h
                exact absurd h2 (by simp)
          · have hmap := lk_mapEntry_ne es k kk (fun v => modValAt v p f) hkk
            simp only at hmap
            have hred : keyRefAt kk (some (PdfVal.dict (es.map (fun q2 =>
                if q2.1 = k then (k, modValAt q2.2 p f) else q2)))) =
                (match lookupKey (es.map (fun q2 =>
                  if q2.1 = k then (k, modValAt q2.2 p f) else q2)) kk with
                 | some (.ref r2) => some r2
                 | _ => none) := rfl
            rw [hred, hmap] at h
            exact h
        | cons s2 q =>
          cases s2 with
          | key k2 =>
            have hL : valAt (PdfVal.dict (es.map (fun q2 =>
                if q2.1 = k then (k, modValAt q2.2 p f) else q2))) (Step.key k2 :: q) =
                (lookupKey (es.map (fun q2 =>
                  if q2.1 = k then (k, modValAt q2.2 p f) else q2)) k2).bind
                  (fun v => valAt v q) := rfl
            rw [hL] at h
            have hR : valAt (PdfVal.dict es) (Step.key k2 :: q) =
                (lookupKey es k2).bind (fun v => valAt v q) := rfl
            rw [hR]
            by_cases hk2 : k2 = k
            · subst hk2
              have hmap := lk_mapEntry_self es k2 (fun v => modValAt v p f)
              simp only at hmap
              rw [hmap] at h
              cases hlk : lookupKey es k2 with
              | none =>
                rw [hlk] at h
                have h2 : (none : Option ObjGen) = some r := h
                exact absurd h2 (by simp)
              | some w =>
                rw [hlk] at h
                simp only [Option.map_some', Option.some_bind] at h
                simp only [Option.some_bind]
                exact ih w f hnd hdict hfr q r h
            · have hmap := lk_mapEntry_ne es k k2 (fun v => modValAt v p f) hk2
              simp only at hmap
              rw [hmap] at h
              exact h
          | idx i =>
            have hL : valAt (PdfVal.dict (es.map (fun q2 =>
                if q2.1 = k then (k, modValAt q2.2 p f) else q2))) (Step.idx i :: q) =
                none := rfl
            rw [hL] at h
            have h2 : (none : Option ObjGen) = some r := h
            exact absurd h2 (by simp)
      | ref og => exact h
      | arr es => exact h
      | name s2 => exact h
      | int n => exact h
      | null => exact h
      | bad => exact h
    | idx i =>
      cases root with
      | arr es =>
        have hm : modValAt (PdfVal.arr es) (Step.idx i :: p) f =
            .arr (es.mapIdx (fun j v => if j = i then modValAt v p f else v)) := rfl
        rw [hm] at h
        cases q with
        | nil =>
          have hv : keyRefAt kk (valAt (PdfVal.arr (es.mapIdx (fun j v =>
              if j = i then modValAt v p f else v))) []) = none := rfl
          rw [hv] at h
          exact absurd h (by simp)
        | cons s2 q =>
          cases s2 with
          | key k2 =>
            have hL : valAt (PdfVal.arr (es.mapIdx (fun j v =>
                if j = i then modValAt v p f else v))) (Step.key k2 :: q) = none := rfl
            rw [hL] at h
            have h2 : (none : Option ObjGen) = some r := h
            exact absurd h2 (by simp)
          | idx j =>
            have hL : valAt (PdfVal.arr (es.mapIdx (fun j2 v =>
                if j2 = i then modValAt v p f else v))) (Step.idx j :: q) =
                ((es.mapIdx (fun j2 v => if j2 = i then modValAt v p f else v)).get? j).bind
                  (fun v => valAt v q) := rfl
            rw [hL] at h
            have hR : valAt (PdfVal.arr es) (Step.idx j :: q) =
                (es.get? j).bind (fun v => valAt v q) := rfl
            rw [hR]
            by_cases hj : j = i
            · subst hj
              have hmap := get?_mapIdxCond es j (fun v => modValAt v p f)
              simp only [if_pos rfl] at hmap
              rw [hmap] at h
              cases hlk : es.get? j with
              | none =>
                rw [hlk] at h
                have h2 : (none : Option ObjGen) = some r := h
                exact absurd h2 (by simp)
              | some w =>
                rw [hlk] at h
                simp only [Option.map_some', Option.some_bind] at h
                simp only [Option.some_bind]
                exact ih w f hnd hdict hfr q r h
            · rw [get?_mapIdxCond_ne es i j (fun v => modValAt v p f) hj] at h
              exact h
      | ref og => exact h
      | dict es => exact h
      | name s2 => exact h
      | int n => exact h
      | null => exact h
      | bad => exact h

/- Section D: object-level update lemmas -/

theorem find_updateAtLoc_ne (d : Doc) (loc : Loc) (f : PdfVal → PdfVal)
    (og2 : ObjGen) (h : ¬ og2 = loc.og) :
    (updateAtLoc d loc f).find og2 = d.find og2 := by
  unfold updateAtLoc
  cases hf : d.find loc.og with
  | none => rfl
  | some o => exact find_setObj_ne d loc.og _ og2 h

theorem isStreamAt_updateAtLoc (d : Doc) (loc : Loc) (f : PdfVal → PdfVal)
    (og2 : ObjGen) :
    isStreamAt (updateAtLoc d loc f) og2 = isStreamAt d og2 := by
  by_cases hog : og2 = loc.og
  · subst hog
    unfold updateAtLoc
    cases hf : d.find loc.og with
    | none => rfl
    | some o =>
      unfold isStreamAt
      rw [find_setObj_self d loc.og _, hf]
      simp only [Option.map_some']
      cases o with
      | stream sd dec raw sp =>
        cases modValAt (rootVal (PdfObj.stream sd dec raw sp)) loc.path f <;> rfl
      | direct v => rfl
  · unfold isStreamAt
    rw [find_updateAtLoc_ne d loc f og2 hog]

theorem modValAt_dict_isDict (f : PdfVal → PdfVal)
    (hdict : ∀ es, ∃ es2, f (.dict es) = .dict es2 ∧
      lookupKey es2 "/Resources" = lookupKey es "/Resources")
    (es : Entries) (p : List Step) :
    ∃ es2, modValAt (PdfVal.dict es) p f = PdfVal.dict es2 := by
  cases p with
  | nil =>
    obtain ⟨es2, hf, _⟩ := hdict es
    exact ⟨es2, hf⟩
  | cons s p =>
    cases s with
    | key k => exact ⟨_, rfl⟩
    | idx i => exact ⟨es, rfl⟩

theorem rootVal_setRootVal_update (f : PdfVal → PdfVal)
    (hdict : ∀ es, ∃ es2, f (.dict es) = .dict es2 ∧
      lookupKey es2 "/Resources" = lookupKey es "/Resources")
    (o : PdfObj) (p : List Step) :
    rootVal (setRootVal o (modValAt (rootVal o) p f)) = modValAt (rootVal o) p f := by
  cases o with
  | stream sd dec raw sp =>
    obtain ⟨es2, hm⟩ := modValAt_dict_isDict f hdict sd p
    show rootVal (setRootVal (PdfObj.stream sd dec raw sp)
      (modValAt (PdfVal.dict sd) p f)) = modValAt (PdfVal.dict sd) p f
    rw [hm]
    rfl
  | direct v => rfl

theorem getAtLoc_updateAtLoc_ne (d : Doc) (loc : Loc) (f : PdfVal → PdfVal)
    (L : Loc) (h : ¬ L.og = loc.og) :
    getAtLoc (updateAtLoc d loc f) L = getAtLoc d L := by
  unfold getAtLoc
  rw [find_updateAtLoc_ne d loc f L.og h]

theorem getAtLoc_updateAtLoc_self (d : Doc) (loc : Loc) (f : PdfVal → PdfVal)
    (hdict : ∀ es, ∃ es2, f (.dict es) = .dict es2 ∧
      lookupKey es2 "/Resources" = lookupKey es "/Resources")
    (q : List Step) :
    getAtLoc (updateAtLoc d loc f) (Loc.mk loc.og q) =
      (match d.find loc.og with
       | none => none
       | some o => valAt (modValAt (rootVal o) loc.path f) q) := by
  unfold updateAtLoc
  cases hf : d.find loc.og with
  | none =>
    unfold getAtLoc
    show (d.find loc.og).bind _ = _
    rw [hf]
    rfl
  | some o =>
    unfold getAtLoc
    show ((d.setObj loc.og _).find loc.og).bind _ = _
    rw [find_setObj_self d loc.og _, hf]
    simp only [Option.map_some', Option.some_bind]
    rw [rootVal_setRootVal_update f hdict o loc.path]

theorem all_fst_updateAtLoc (d : Doc) (loc : Loc) (f : PdfVal → PdfVal)
    (Q : ObjGen → Bool) :
    ((updateAtLoc d loc f).objects.all (fun p => Q p.1)) =
      (d.objects.all (fun p => Q p.1)) := by
  unfold updateAtLoc
  cases hf : d.find loc.og with
  | none => rfl
  | some o =>
    show ((d.objects.map (fun p =>
      if p.1 = loc.og then (loc.og, setRootVal o (modValAt (rootVal o) loc.path f)) else p)).all
        (fun p => Q p.1)) = _
    rw [List.all_map]
    congr 1
    funext p
    by_cases hp : p.1 = loc.og
    · simp [Function.comp, hp]
    · simp [Function.comp, hp]

/- Section E: invariant transfer under a single mutation -/

theorem pfLoc_updateAtLoc (d : Doc) (loc : Loc) (f : PdfVal → PdfVal)
    (hdict : ∀ es, ∃ es2, f (.dict es) = .dict es2 ∧
      lookupKey es2 "/Resources" = lookupKey es "/Resources")
    (hpf : ∀ v q, pfOpt (valAt v q) = true → pfOpt (valAt (f v) q) = true)
    (L : Loc) (h : pfLoc d L = true) :
    pfLoc (updateAtLoc d loc f) L = true := by
  obtain ⟨og2, q⟩ := L
  by_cases hog : og2 = loc.og
  · subst hog
    unfold pfLoc
    rw [getAtLoc_updateAtLoc_self d loc f hdict q]
    cases hf : d.find loc.og with
    | none => rfl
    | some o =>
      unfold pfLoc getAtLoc at h
      rw [hf] at h
      simp only [Option.some_bind] at h
      exact modValAt_pf loc.path (rootVal o) f hpf q h
  · unfold pfLoc
    rw [getAtLoc_updateAtLoc_ne d loc f ⟨og2, q⟩ hog]
    exact h

theorem lookupResShape_updateAtLoc (d : Doc) (loc : Loc) (f : PdfVal → PdfVal)
    (hdict : ∀ es, ∃ es2, f (.dict es) = .dict es2 ∧
      lookupKey es2 "/Resources" = lookupKey es "/Resources")
    (hnd : ∀ (v : PdfVal), (∀ es, v ≠ PdfVal.dict es) → f v = v)
    (og2 : ObjGen) :
    resShape (lookupRes (updateAtLoc d loc f) og2) =
      resShape (lookupRes d og2) := by
  by_cases hog : og2 = loc.og
  · subst hog
    unfold updateAtLoc
    cases hf : d.find loc.og with
    | none => rfl
    | some o =>
      unfold lookupRes
      rw [find_setObj_self d loc.og _, hf]
      simp only [Option.map_some']
      rw [rootVal_setRootVal_update f hdict o loc.path]
      exact modValAt_rootRes_shape f hdict hnd (rootVal o) loc.path
  · unfold lookupRes
    rw [find_updateAtLoc_ne d loc f og2 hog]

theorem entriesAtLoc_some (d : Doc) (L : Loc) (es : Entries)
    (h : entriesAtLoc d L = some es) : getAtLoc d L = some (.dict es) := by
  unfold entriesAtLoc at h
  cases hg : getAtLoc d L with
  | none => rw [hg] at h; exact absurd h (by simp)
  | some v =>
    rw [hg] at h
    cases v with
    | dict es2 =>
      have h2 : (some es2 : Option Entries) = some es := h
      injection h2 with h3
      rw [h3]
    | ref og =>
      have h2 : (none : Option Entries) = some es := h
      exact absurd h2 (by simp)
    | arr vs =>
      have h2 : (none : Option Entries) = some es := h
      exact absurd h2 (by simp)
    | name s2 =>
      have h2 : (none : Option Entries) = some es := h
      exact absurd h2 (by simp)
    | int n =>
      have h2 : (none : Option Entries) = some es := h
      exact absurd h2 (by simp)
    | null =>
      have h2 : (none : Option Entries) = some es := h
      exact absurd h2 (by simp)
    | bad =>
      have h2 : (none : Option Entries) = some es := h
      exact absurd h2 (by simp)

theorem keyRefAt_some (kk : String) (x : Option PdfVal) (r : ObjGen)
    (h : keyRefAt kk x = some r) :
    ∃ es, x = some (.dict es) ∧ lookupKey es kk = some (.ref r) := by
  cases x with
  | none =>
    have h2 : (none : Option ObjGen) = some r := h
    exact absurd h2 (by simp)
  | some v =>
    cases v with
    | dict es =>
      refine ⟨es, rfl, ?_⟩
      cases hlk : lookupKey es kk with
      | none =>
        have hr : keyRefAt kk (some (PdfVal.dict es)) =
            (match lookupKey es kk with
             | some (.ref r2) => some r2
             | _ => none) := rfl
        rw [hr, hlk] at h
        exact absurd h (by simp)
      | some w =>
        have hr : keyRefAt kk (some (PdfVal.dict es)) =
            (match lookupKey es kk with
             | some (.ref r2) => some r2
             | _ => none) := rfl
        rw [hr, hlk] at h
        cases w with
        | ref r2 =>
          have h2 : (some r2 : Option ObjGen) = some r := h
          injection h2 with h3
          rw [h3]
        | dict es2 =>
          have h2 : (none : Option ObjGen) = some r := h
          exact absurd h2 (by simp)
        | arr vs =>
          have h2 : (none : Option ObjGen) = some r := h
          exact absurd h2 (by simp)
        | name s2 =>
          have h2 : (none : Option ObjGen) = some r := h
          exact absurd h2 (by simp)
        | int n =>
          have h2 : (none : Option ObjGen) = some r := h
          exact absurd h2 (by simp)
        | null =>
          have h2 : (none : Option ObjGen) = some r := h
          exact absurd h2 (by simp)
        | bad =>
          have h2 : (none : Option ObjGen) = some r := h
          exact absurd h2 (by simp)
    | ref og =>
      have h2 : (none : Option ObjGen) = some r := h
      exact absurd h2 (by simp)
    | arr vs =>
      have h2 : (none : Option ObjGen) = some r := h
      exact absurd h2 (by simp)
    | name s2 =>
      have h2 : (none : Option ObjGen) = some r := h
      exact absurd h2 (by simp)
    | int n =>
      have h2 : (none : Option ObjGen) = some r := h
      exact absurd h2 (by simp)
    | null =>
      have h2 : (none : Option ObjGen) = some r := h
      exact absurd h2 (by simp)
    | bad =>
      have h2 : (none : Option ObjGen) = some r := h
      exact absurd h2 (by simp)

theorem getAtLoc_keyRef_update (d : Doc) (loc : Loc) (f : PdfVal → PdfVal)
    (kk : String)
    (hnd : ∀ (v : PdfVal), (∀ es, v ≠ PdfVal.dict es) → f v = v)
    (hdict : ∀ es, ∃ es2, f (.dict es) = .dict es2 ∧
      lookupKey es2 "/Resources" = lookupKey es "/Resources")
    (hfr : ∀ v q r, keyRefAt kk (valAt (f v) q) = some r →
      keyRefAt kk (valAt v q) = some r)
    (L : Loc) (r : ObjGen)
    (h : keyRefAt kk (getAtLoc (updateAtLoc d loc f) L) = some r) :
    keyRefAt kk (getAtLoc d L) = some r := by
  obtain ⟨og2, q⟩ := L
  by_cases hog : og2 = loc.og
  · subst hog
    rw [getAtLoc_updateAtLoc_self d loc f hdict q] at h
    show keyRefAt kk (getAtLoc d ⟨loc.og, q⟩) = some r
    unfold getAtLoc
    cases hf : d.find loc.og with
    | none =>
      rw [hf] at h
      have h2 : (none : Option ObjGen) = some r := h
      exact absurd h2 (by simp)
    | some o =>
      rw [hf] at h
      simp only [Option.some_bind]
      exact modValAt_keyRef kk loc.path (rootVal o) f hnd hdict hfr q r h
  · rw [getAtLoc_updateAtLoc_ne d loc f ⟨og2, q⟩ hog] at h
    exact h

theorem kNSR_updateAtLoc (d : Doc) (loc : Loc) (f : PdfVal → PdfVal)
    (kk : String)
    (hnd : ∀ (v : PdfVal), (∀ es, v ≠ PdfVal.dict es) → f v = v)
    (hdict : ∀ es, ∃ es2, f (.dict es) = .dict es2 ∧
      lookupKey es2 "/Resources" = lookupKey es "/Resources")
    (hfr : ∀ v q r, keyRefAt kk (valAt (f v) q) = some r →
      keyRefAt kk (valAt v q) = some r)
    (L : Loc) (es2 : Entries)
    (he2 : entriesAtLoc (updateAtLoc d loc f) L = some es2)
    (hold : ∀ es, entriesAtLoc d L = some es → keyNotStreamRef d es kk = true) :
    keyNotStreamRef (updateAtLoc d loc f) es2 kk = true := by
  unfold keyNotStreamRef
  cases hlk : lookupKey es2 kk with
  | none => rfl
  | some w =>
    cases w with
    | ref r =>
      have hg2 := entriesAtLoc_some _ L es2 he2
      have hkr : keyRefAt kk (getAtLoc (updateAtLoc d loc f) L) = some r := by
        rw [hg2]
        have hr : keyRefAt kk (some (PdfVal.dict es2)) =
            (match lookupKey es2 kk with
             | some (.ref r2) => some r2
             | _ => none) := rfl
        rw [hr, hlk]
      have hkr0 := getAtLoc_keyRef_update d loc f kk hnd hdict hfr L r hkr
      obtain ⟨es, hge, hlke⟩ := keyRefAt_some kk _ r hkr0
      have hee : entriesAtLoc d L = some es := by
        unfold entriesAtLoc
        rw [hge]
      have hk := hold es hee
      unfold keyNotStreamRef at hk
      rw [hlke] at hk
      have hk2 : (!(isStreamAt d r)) = true := hk
      show (!(isStreamAt (updateAtLoc d loc f) r)) = true
      rw [isStreamAt_updateAtLoc d loc f r]
      exact hk2
    | dict es3 => rfl
    | arr vs => rfl
    | name s3 => rfl
    | int n => rfl
    | null => rfl
    | bad => rfl

theorem dictOKLoc_updateAtLoc (d : Doc) (loc : Loc) (f : PdfVal → PdfVal)
    (hnd : ∀ (v : PdfVal), (∀ es, v ≠ PdfVal.dict es) → f v = v)
    (hdict : ∀ es, ∃ es2, f (.dict es) = .dict es2 ∧
      lookupKey es2 "/Resources" = lookupKey es "/Resources")
    (hfrPS : ∀ v q r, keyRefAt "/ProcSet" (valAt (f v) q) = some r →
      keyRefAt "/ProcSet" (valAt v q) = some r)
    (hfrRes : ∀ v q r, keyRefAt "/Resources" (valAt (f v) q) = some r →
      keyRefAt "/Resources" (valAt v q) = some r)
    (L : Loc) (h : dictOKLoc d L = true) :
    dictOKLoc (updateAtLoc d loc f) L = true := by
  unfold dictOKLoc
  cases he2 : entriesAtLoc (updateAtLoc d loc f) L with
  | none => rfl
  | some es2 =>
    have hold : ∀ es, entriesAtLoc d L = some es → dictOK d es = true := by
      intro es hee
      unfold dictOKLoc at h
      rw [hee] at h
      exact h
    unfold dictOK
    rw [Bool.and_eq_true]
    constructor
    · exact kNSR_updateAtLoc d loc f "/ProcSet" hnd hdict hfrPS L es2 he2
        (fun es hee => by
          have hk := hold es hee
          unfold dictOK at hk
          rw [Bool.and_eq_true] at hk
          exact hk.1)
    · exact kNSR_updateAtLoc d loc f "/Resources" hnd hdict hfrRes L es2 he2
        (fun es hee => by
          have hk := hold es hee
          unfold dictOK at hk
          rw [Bool.and_eq_true] at hk
          exact hk.2)

theorem sanWF_updateAtLoc (d : Doc) (loc : Loc) (f : PdfVal → PdfVal)
    (hnd : ∀ (v : PdfVal), (∀ es, v ≠ PdfVal.dict es) → f v = v)
    (hdict : ∀ es, ∃ es2, f (.dict es) = .dict es2 ∧
      lookupKey es2 "/Resources" = lookupKey es "/Resources")
    (hfrPS : ∀ v q r, keyRefAt "/ProcSet" (valAt (f v) q) = some r →
      keyRefAt "/ProcSet" (valAt v q) = some r)
    (hfrRes : ∀ v q r, keyRefAt "/Resources" (valAt (f v) q) = some r →
      keyRefAt "/Resources" (valAt v q) = some r)
    (h : sanWellFormed d = true) :
    sanWellFormed (updateAtLoc d loc f) = true := by
  unfold sanWellFormed at h ⊢
  rw [all_fst_updateAtLoc d loc f (fun og =>
    dictOKLoc (updateAtLoc d loc f) ⟨og, []⟩ &&
    dictOKLoc (updateAtLoc d loc f) ⟨og, [.key "/XObject"]⟩ &&
    dictOKLoc (updateAtLoc d loc f) ⟨og, [.key "/Resources", .key "/XObject"]⟩)]
  rw [List.all_eq_true] at h ⊢
  intro p hp
  have h3 := h p hp
  rw [Bool.and_eq_true, Bool.and_eq_true] at h3
  rw [Bool.and_eq_true, Bool.and_eq_true]
  exact ⟨⟨dictOKLoc_updateAtLoc d loc f hnd hdict hfrPS hfrRes _ h3.1.1,
          dictOKLoc_updateAtLoc d loc f hnd hdict hfrPS hfrRes _ h3.1.2⟩,
         dictOKLoc_updateAtLoc d loc f hnd hdict hfrPS hfrRes _ h3.2⟩

theorem ownRes_mono (d d2 : Doc)
    (hB : ∀ L, pfLoc d L = true → pfLoc d2 L = true)
    (hC : ∀ og, resShape (lookupRes d2 og) = resShape (lookupRes d og))
    (og : ObjGen) (h : ownResProcSetFree d og = true) :
    ownResProcSetFree d2 og = true := by
  unfold ownResProcSetFree at h ⊢
  rw [hC og]
  cases hs : resShape (lookupRes d og) with
  | none => rfl
  | some o2 =>
    cases o2 with
    | some r =>
      rw [hs] at h
      exact hB ⟨r, []⟩ h
    | none =>
      rw [hs] at h
      exact hB ⟨og, [.key "/Resources"]⟩ h

theorem fhmOK_mono (d d2 : Doc)
    (hB : ∀ L, pfLoc d L = true → pfLoc d2 L = true)
    (hC : ∀ og, resShape (lookupRes d2 og) = resShape (lookupRes d og))
    (m : HashMap) (h : fhmOK d m = true) : fhmOK d2 m = true := by
  unfold fhmOK at h ⊢
  rw [List.all_eq_true] at h ⊢
  intro e he
  exact ownRes_mono d d2 hB hC e.2 (h e he)

/- Section F: the sanitizer's two mutation functions -/

theorem remPS_nd : ∀ (v : PdfVal), (∀ es, v ≠ PdfVal.dict es) → remPS v = v := by
  intro v hv
  cases v with
  | dict es => exact absurd rfl (hv es)
  | ref og => rfl
  | arr vs => rfl
  | name s => rfl
  | int n => rfl
  | null => rfl
  | bad => rfl

theorem remPS_dict : ∀ es, ∃ es2, remPS (.dict es) = .dict es2 ∧
    lookupKey es2 "/Resources" = lookupKey es "/Resources" := by
  intro es
  refine ⟨removeKey es "/ProcSet", rfl, ?_⟩
  rw [lookupKey_removeKey]
  rw [if_neg (by decide)]

theorem remPS_pf : ∀ (v : PdfVal) (q : List Step),
    pfOpt (valAt v q) = true → pfOpt (valAt (remPS v) q) = true := by
  intro v q h
  cases v with
  | dict es =>
    show pfOpt (valAt (PdfVal.dict (removeKey es "/ProcSet")) q) = true
    cases q with
    | nil =>
      show pfOpt (some (PdfVal.dict (removeKey es "/ProcSet"))) = true
      show (!hasKey (removeKey es "/ProcSet") "/ProcSet") = true
      rw [hasKey_removeKey_self]
      rfl
    | cons s q =>
      cases s with
      | key k2 =>
        show pfOpt ((lookupKey (removeKey es "/ProcSet") k2).bind
          (fun w => valAt w q)) = true
        rw [lookupKey_removeKey]
        by_cases hk2 : k2 = "/ProcSet"
        · rw [if_pos hk2]; rfl
        · rw [if_neg hk2]
          exact h
      | idx i => rfl
  | ref og => exact h
  | arr vs => exact h
  | name s => exact h
  | int n => exact h
  | null => exact h
  | bad => exact h

theorem remPS_keyRef (kk : String) : ∀ (v : PdfVal) (q : List Step) (r : ObjGen),
    keyRefAt kk (valAt (remPS v) q) = some r →
    keyRefAt kk (valAt v q) = some r := by
  intro v q r h
  cases v with
  | dict es =>
    have hrem : remPS (PdfVal.dict es) = PdfVal.dict (removeKey es "/ProcSet") := rfl
    rw [hrem] at h
    cases q with
    | nil =>
      have hred : keyRefAt kk (valAt (PdfVal.dict (removeKey es "/ProcSet")) []) =
          (match lookupKey (removeKey es "/ProcSet") kk with
           | some (.ref r2) => some r2
           | _ => none) := rfl
      rw [hred, lookupKey_removeKey] at h
      by_cases hk2 : kk = "/ProcSet"
      · rw [if_pos hk2] at h
        have h2 : (none : Option ObjGen) = some r := h
        exact absurd h2 (by simp)
      · rw [if_neg hk2] at h
        exact h
    | cons s q =>
      cases s with
      | key k2 =>
        have hred : valAt (PdfVal.dict (removeKey es "/ProcSet")) (Step.key k2 :: q) =
            (lookupKey (removeKey es "/ProcSet") k2).bind (fun w => valAt w q) := rfl
        rw [hred, lookupKey_removeKey] at h
        by_cases hk2 : k2 = "/ProcSet"
        · rw [if_pos hk2] at h
          have h2 : (none : Option ObjGen) = some r := h
          exact absurd h2 (by simp)
        · rw [if_neg hk2] at h
          exact h
      | idx i =>
        have h2 : (none : Option ObjGen) = some r := h
        exact absurd h2 (by simp)
  | ref og => exact h
  | arr vs => exact h
  | name s => exact h
  | int n => exact h
  | null => exact h
  | bad => exact h

theorem setX_nd (k : String) (c : ObjGen) :
    ∀ (v : PdfVal), (∀ es, v ≠ PdfVal.dict es) → setX k c v = v := by
  intro v hv
  cases v with
  | dict es => exact absurd rfl (hv es)
  | ref og => rfl
  | arr vs => rfl
  | name s => rfl
  | int n => rfl
  | null => rfl
  | bad => rfl

theorem setX_dict (k : String) (c : ObjGen) (hkRes : ¬ k = "/Resources") :
    ∀ es, ∃ es2, setX k c (.dict es) = .dict es2 ∧
      lookupKey es2 "/Resources" = lookupKey es "/Resources" := by
  intro es
  refine ⟨setKey es k (.ref c), rfl, ?_⟩
  exact lookupKey_setKey_ne es k "/Resources" _ (fun he => hkRes he.symm)

theorem setX_pf (k : String) (c : ObjGen) (hkPS : ¬ k = "/ProcSet") :
    ∀ (v : PdfVal) (q : List Step),
      pfOpt (valAt v q) = true → pfOpt (valAt (setX k c v) q) = true := by
  intro v q h
  cases v with
  | dict es =>
    show pfOpt (valAt (PdfVal.dict (setKey es k (PdfVal.ref c))) q) = true
    cases q with
    | nil =>
      show (!hasKey (setKey es k (PdfVal.ref c)) "/ProcSet") = true
      rw [hasKey_setKey_ne es k "/ProcSet" _ (fun he => hkPS he.symm)]
      exact h
    | cons s q =>
      cases s with
      | key k2 =>
        show pfOpt ((lookupKey (setKey es k (PdfVal.ref c)) k2).bind
          (fun w => valAt w q)) = true
        by_cases hk2 : k2 = k
        · subst hk2
          rw [lookupKey_setKey_self]
          cases q with
          | nil => rfl
          | cons s2 q2 => cases s2 <;> rfl
        · rw [lookupKey_setKey_ne es k k2 _ hk2]
          exact h
      | idx i => rfl
  | ref og => exact h
  | arr vs => exact h
  | name s => exact h
  | int n => exact h
  | null => exact h
  | bad => exact h

theorem setX_keyRef (k : String) (c : ObjGen) (kk : String) (hkk : ¬ kk = k) :
    ∀ (v : PdfVal) (q : List Step) (r : ObjGen),
      keyRefAt kk (valAt (setX k c v) q) = some r →
      keyRefAt kk (valAt v q) = some r := by
  intro v q r h
  cases v with
  | dict es =>
    have hset : setX k c (PdfVal.dict es) = PdfVal.dict (setKey es k (.ref c)) := rfl
    rw [hset] at h
    cases q with
    | nil =>
      have hred : keyRefAt kk (valAt (PdfVal.dict (setKey es k (PdfVal.ref c))) []) =
          (match lookupKey (setKey es k (PdfVal.ref c)) kk with
           | some (.ref r2) => some r2
           | _ => none) := rfl
      rw [hred, lookupKey_setKey_ne es k kk _ hkk] at h
      exact h
    | cons s q =>
      cases s with
      | key k2 =>
        have hred : valAt (PdfVal.dict (setKey es k (PdfVal.ref c))) (Step.key k2 :: q) =
            (lookupKey (setKey es k (PdfVal.ref c)) k2).bind (fun w => valAt w q) := rfl
        rw [hred] at h
        by_cases hk2 : k2 = k
        · subst hk2
          rw [lookupKey_setKey_self] at h
          cases q with
          | nil =>
            have h2 : (none : Option ObjGen) = some r := h
            exact absurd h2 (by simp)
          | cons s2 q2 =>
            cases s2 with
            | key k3 =>
              have h2 : (none : Option ObjGen) = some r := h
              exact absurd h2 (by simp)
            | idx i =>
              have h2 : (none : Option ObjGen) = some r := h
              exact absurd h2 (by simp)
        · rw [lookupKey_setKey_ne es k k2 _ hk2] at h
          exact h
      | idx i =>
        have h2 : (none : Option ObjGen) = some r := h
        exact absurd h2 (by simp)
  | ref og => exact h
  | arr vs => exact h
  | name s => exact h
  | int n => exact h
  | null => exact h
  | bad => exact h

/- Section G: bundled step facts and sanF-side helpers -/

theorem remPS_step (d : Doc) (loc : Loc) :
    (sanWellFormed d = true → sanWellFormed (updateAtLoc d loc remPS) = true) ∧
    (∀ L, pfLoc d L = true → pfLoc (updateAtLoc d loc remPS) L = true) ∧
    (∀ og, resShape (lookupRes (updateAtLoc d loc remPS) og) =
      resShape (lookupRes d og)) := by
  refine ⟨?_, ?_, ?_⟩
  · exact sanWF_updateAtLoc d loc remPS remPS_nd remPS_dict
      (remPS_keyRef "/ProcSet") (remPS_keyRef "/Resources")
  · exact pfLoc_updateAtLoc d loc remPS remPS_dict remPS_pf
  · exact lookupResShape_updateAtLoc d loc remPS remPS_dict remPS_nd

theorem setX_step (d : Doc) (loc : Loc) (k : String) (c : ObjGen)
    (hkPS : ¬ k = "/ProcSet") (hkRes : ¬ k = "/Resources") :
    (sanWellFormed d = true → sanWellFormed (updateAtLoc d loc (setX k c)) = true) ∧
    (∀ L, pfLoc d L = true → pfLoc (updateAtLoc d loc (setX k c)) L = true) ∧
    (∀ og, resShape (lookupRes (updateAtLoc d loc (setX k c)) og) =
      resShape (lookupRes d og)) := by
  refine ⟨?_, ?_, ?_⟩
  · exact sanWF_updateAtLoc d loc (setX k c) (setX_nd k c) (setX_dict k c hkRes)
      (setX_keyRef k c "/ProcSet" (fun he => hkPS he.symm))
      (setX_keyRef k c "/Resources" (fun he => hkRes he.symm))
  · exact pfLoc_updateAtLoc d loc (setX k c) (setX_dict k c hkRes)
      (setX_pf k c hkPS)
  · exact lookupResShape_updateAtLoc d loc (setX k c) (setX_dict k c hkRes)
      (setX_nd k c)

theorem readVal_ind (d : Doc) (v : PdfVal) (og : ObjGen) (o : PdfObj)
    (h : readVal d v = .ok (.ind og o)) :
    v = .ref og ∧ d.find og = some o := by
  cases v with
  | ref og2 =>
    have hm : (match d.find og2 with
      | some o2 => (Except.ok (RVal.ind og2 o2) : Except Unit RVal)
      | none => Except.error ()) = .ok (.ind og o) := h
    cases hf : d.find og2 with
    | none => rw [hf] at hm; exact absurd hm (by simp)
    | some o2 =>
      rw [hf] at hm
      have h2 : (Except.ok (RVal.ind og2 o2) : Except Unit RVal) = .ok (.ind og o) := hm
      injection h2 with h3
      injection h3 with h4 h5
      subst h4
      subst h5
      exact ⟨rfl, hf⟩
  | bad => exact absurd h (by simp [readVal])
  | dict es =>
    have h2 : (Except.ok (RVal.inl (PdfVal.dict es)) : Except Unit RVal) =
      .ok (.ind og o) := h
    injection h2 with h3
    exact absurd h3 (by simp)
  | arr vs =>
    have h2 : (Except.ok (RVal.inl (PdfVal.arr vs)) : Except Unit RVal) =
      .ok (.ind og o) := h
    injection h2 with h3
    exact absurd h3 (by simp)
  | name s =>
    have h2 : (Except.ok (RVal.inl (PdfVal.name s)) : Except Unit RVal) =
      .ok (.ind og o) := h
    injection h2 with h3
    exact absurd h3 (by simp)
  | int n =>
    have h2 : (Except.ok (RVal.inl (PdfVal.int n)) : Except Unit RVal) =
      .ok (.ind og o) := h
    injection h2 with h3
    exact absurd h3 (by simp)
  | null =>
    have h2 : (Except.ok (RVal.inl PdfVal.null) : Except Unit RVal) =
      .ok (.ind og o) := h
    injection h2 with h3
    exact absurd h3 (by simp)

theorem entriesAtLoc_some_find (d : Doc) (L : Loc) (es : Entries)
    (h : entriesAtLoc d L = some es) : ∃ o, d.find L.og = some o := by
  have hg := entriesAtLoc_some d L es h
  unfold getAtLoc at hg
  cases hf : d.find L.og with
  | none => rw [hf] at hg; exact absurd hg (by simp)
  | some o => exact ⟨o, rfl⟩

theorem sanWF_dictOKLoc (d : Doc) (og : ObjGen) (o : PdfObj)
    (hwf : sanWellFormed d = true) (hf : d.find og = some o)
    (path : List Step)
    (hp : path = [] ∨ path = [.key "/XObject"] ∨
      path = [.key "/Resources", .key "/XObject"]) :
    dictOKLoc d ⟨og, path⟩ = true := by
  have hmem := find_mem hf
  unfold sanWellFormed at hwf
  rw [List.all_eq_true] at hwf
  have h3 := hwf (og, o) hmem
  rw [Bool.and_eq_true, Bool.and_eq_true] at h3
  rcases hp with hp | hp | hp
  · rw [hp]; exact h3.1.1
  · rw [hp]; exact h3.1.2
  · rw [hp]; exact h3.2

theorem k_not_special (d : Doc) (xes : Entries) (k : String) (ogx : ObjGen)
    (hok : dictOK d xes = true)
    (hlk : lookupKey xes k = some (.ref ogx))
    (hstr : isStreamAt d ogx = true) :
    ¬ k = "/ProcSet" ∧ ¬ k = "/Resources" := by
  unfold dictOK at hok
  rw [Bool.and_eq_true] at hok
  constructor
  · intro he
    subst he
    have h1 := hok.1
    unfold keyNotStreamRef at h1
    rw [hlk] at h1
    have h2 : (!(isStreamAt d ogx)) = true := h1
    rw [hstr] at h2
    exact absurd h2 (by simp)
  · intro he
    subst he
    have h1 := hok.2
    unfold keyNotStreamRef at h1
    rw [hlk] at h1
    have h2 : (!(isStreamAt d ogx)) = true := h1
    rw [hstr] at h2
    exact absurd h2 (by simp)

theorem lookupRes_of_stream (d : Doc) (ogx : ObjGen) (sd : Entries)
    (dec : Bytes) (raw : Option Bytes) (sp : Bool)
    (hf : d.find ogx = some (.stream sd dec raw sp)) :
    lookupRes d ogx = lookupKey sd "/Resources" := by
  unfold lookupRes
  rw [hf]
  rfl

theorem sanF_res_cont (fuel : Nat) (doc1 : Doc) (fhm : HashMap) (loc : Loc)
    (doc' : Doc) (fhm' : HashMap)
    (ih : SanPost fuel)
    (hloc : loc.path = [] ∨ loc.path = [Step.key "/Resources"])
    (hA1 : sanWellFormed doc1 = true)
    (hFH1 : fhmOK doc1 fhm = true)
    (hD1 : pfLoc doc1 loc = true)
    (hrun : (match entriesAtLoc doc1 loc with
      | none => (.error () : Except Unit (Doc × HashMap))
      | some es1 =>
        match lookupKey es1 "/XObject" with
        | none => .ok (doc1, fhm)
        | some stored =>
          match readVal doc1 stored with
          | .error _ => .error ()
          | .ok rv =>
            match entriesAtLoc doc1
              (match rv with
               | RVal.ind og _ => Loc.mk og []
               | RVal.inl _ => Loc.mk loc.og (loc.path ++ [Step.key "/XObject"])) with
            | none => .error ()
            | some xes =>
              sanF fuel doc1 fhm (.xkeys
                (match rv with
                 | RVal.ind og _ => Loc.mk og []
                 | RVal.inl _ => Loc.mk loc.og (loc.path ++ [Step.key "/XObject"]))
                (xes.map (fun (p : String × PdfVal) => p.1)))) = .ok (doc', fhm')) :
    sanWellFormed doc' = true ∧
    (∀ L, pfLoc doc1 L = true → pfLoc doc' L = true) ∧
    (∀ og, resShape (lookupRes doc' og) = resShape (lookupRes doc1 og)) ∧
    fhmOK doc' fhm' = true ∧
    pfLoc doc' loc = true := by
  split at hrun
  · exact absurd hrun (by simp)
  case h_2 x es1 hes1 =>
  split at hrun
  case h_1 =>
    have h2 : (doc1, fhm) = (doc', fhm') := by
      injection hrun with h3
    have hd : doc1 = doc' := congrArg Prod.fst h2
    have hf : fhm = fhm' := congrArg Prod.snd h2
    subst hd
    subst hf
    exact ⟨hA1, fun L h => h, fun og => rfl, hFH1, hD1⟩
  case h_2 x2 stored hstored =>
  split at hrun
  · exact absurd hrun (by simp)
  case h_2 x3 rv hrv =>
  split at hrun
  · exact absurd hrun (by simp)
  case h_2 x4 xes hxes =>
  have hshape : (match rv with
      | RVal.ind og _ => Loc.mk og []
      | RVal.inl _ => Loc.mk loc.og (loc.path ++ [Step.key "/XObject"])).path = [] ∨
    (match rv with
      | RVal.ind og _ => Loc.mk og []
      | RVal.inl _ => Loc.mk loc.og (loc.path ++ [Step.key "/XObject"])).path =
        [Step.key "/XObject"] ∨
    (match rv with
      | RVal.ind og _ => Loc.mk og []
      | RVal.inl _ => Loc.mk loc.og (loc.path ++ [Step.key "/XObject"])).path =
        [Step.key "/Resources", Step.key "/XObject"] := by
    cases rv with
    | ind og o => exact Or.inl rfl
    | inl v =>
      rcases hloc with hl | hl
      · refine Or.inr (Or.inl ?_)
        show loc.path ++ [Step.key "/XObject"] = [Step.key "/XObject"]
        rw [hl]
        rfl
      · refine Or.inr (Or.inr ?_)
        show loc.path ++ [Step.key "/XObject"] = [Step.key "/Resources", Step.key "/XObject"]
        rw [hl]
        rfl
  have hpost := ih doc1 fhm _ doc' fhm'
    (fun loc2 h => STask.noConfusion h)
    (fun xl ks2 h => by
      injection h with h1 h2
      rw [← h1]
      exact hshape)
    hA1 hFH1 hrun
  exact ⟨hpost.1, hpost.2.1, hpost.2.2.1, hpost.2.2.2.1, hpost.2.1 loc hD1⟩

theorem sanF_xk_cont (fuel : Nat) (doc2 : Doc) (fhm2 : HashMap) (xloc : Loc)
    (ks : List String) (k : String) (ogx : ObjGen)
    (dec : Bytes) (raw : Option Bytes) (sp : Bool)
    (doc' : Doc) (fhm' : HashMap)
    (ih : SanPost fuel)
    (hxshape : xloc.path = [] ∨ xloc.path = [Step.key "/XObject"] ∨
      xloc.path = [Step.key "/Resources", Step.key "/XObject"])
    (hkPS : ¬ k = "/ProcSet") (hkRes : ¬ k = "/Resources")
    (hA2 : sanWellFormed doc2 = true)
    (hFH2 : fhmOK doc2 fhm2 = true)
    (hOwn : ownResProcSetFree doc2 ogx = true)
    (hrun : (match contentBytes raw sp dec with
      | none => sanF fuel doc2 fhm2 (.xkeys xloc ks)
      | some bs =>
        match hmLookup fhm2 (sha256 bs) with
        | none => sanF fuel doc2 ((sha256 bs, ogx) :: fhm2) (.xkeys xloc ks)
        | some c =>
          if ogx = c then sanF fuel doc2 fhm2 (.xkeys xloc ks)
          else sanF fuel (updateAtLoc doc2 xloc (setX k c)) fhm2
            (.xkeys xloc ks)) = .ok (doc', fhm')) :
    sanWellFormed doc' = true ∧
    (∀ L, pfLoc doc2 L = true → pfLoc doc' L = true) ∧
    (∀ og, resShape (lookupRes doc' og) = resShape (lookupRes doc2 og)) ∧
    fhmOK doc' fhm' = true := by
  have hvac : ∀ loc2, STask.xkeys xloc ks = STask.res loc2 →
      loc2.path = [] ∨ loc2.path = [Step.key "/Resources"] :=
    fun loc2 h => STask.noConfusion h
  have hxk2 : ∀ xl ks2, STask.xkeys xloc ks = STask.xkeys xl ks2 →
      xl.path = [] ∨ xl.path = [Step.key "/XObject"] ∨
      xl.path = [Step.key "/Resources", Step.key "/XObject"] := by
    intro xl ks2 h
    injection h with h1 h2
    rw [← h1]
    exact hxshape
  split at hrun
  · have hpost := ih doc2 fhm2 _ doc' fhm' hvac hxk2 hA2 hFH2 hrun
    exact ⟨hpost.1, hpost.2.1, hpost.2.2.1, hpost.2.2.2.1⟩
  case h_2 x bs hbs =>
  split at hrun
  · have hfh3 : fhmOK doc2 ((sha256 bs, ogx) :: fhm2) = true := by
      unfold fhmOK
      rw [List.all_cons, Bool.and_eq_true]
      exact ⟨hOwn, hFH2⟩
    have hpost := ih doc2 ((sha256 bs, ogx) :: fhm2) _ doc' fhm' hvac hxk2 hA2 hfh3 hrun
    exact ⟨hpost.1, hpost.2.1, hpost.2.2.1, hpost.2.2.2.1⟩
  case h_2 x2 c hc =>
  split at hrun
  · have hpost := ih doc2 fhm2 _ doc' fhm' hvac hxk2 hA2 hFH2 hrun
    exact ⟨hpost.1, hpost.2.1, hpost.2.2.1, hpost.2.2.2.1⟩
  · have hstep := setX_step doc2 xloc k c hkPS hkRes
    have hA3 := hstep.1 hA2
    have hB3 := hstep.2.1
    have hC3 := hstep.2.2
    have hFH3 : fhmOK (updateAtLoc doc2 xloc (setX k c)) fhm2 = true :=
      fhmOK_mono doc2 _ hB3 hC3 fhm2 hFH2
    have hpost := ih (updateAtLoc doc2 xloc (setX k c)) fhm2 _ doc' fhm'
      hvac hxk2 hA3 hFH3 hrun
    exact ⟨hpost.1, fun L h => hpost.2.1 L (hB3 L h),
      fun og => (hpost.2.2.1 og).trans (hC3 og), hpost.2.2.2.1⟩

theorem sanF_post : ∀ fuel, SanPost fuel := by
  intro fuel
  induction fuel with
  | zero =>
    intro doc fhm task doc' fhm' hres hxk hwf hfh hrun
    exact absurd hrun (by simp [sanF])
  | succ fuel ih =>
    intro doc fhm task doc' fhm' hres hxk hwf hfh hrun
    cases task with
    | res loc =>
      have hloc := hres loc rfl
      simp only [sanF] at hrun
      split at hrun
      case h_2 => exact absurd hrun (by simp)
      case h_1 x es heq =>
      by_cases hps : hasKey es "/ProcSet" = true
      · rw [if_pos hps] at hrun
        have hstep := remPS_step doc loc
        have hA1 := hstep.1 hwf
        have hB1 := hstep.2.1
        have hC1 := hstep.2.2
        have hFH1 : fhmOK (updateAtLoc doc loc remPS) fhm = true :=
          fhmOK_mono doc _ hB1 hC1 fhm hfh
        have hD1 : pfLoc (updateAtLoc doc loc remPS) loc = true := by
          unfold pfLoc
          rw [show getAtLoc (updateAtLoc doc loc remPS) loc =
            (match doc.find loc.og with
             | none => none
             | some o => valAt (modValAt (rootVal o) loc.path remPS) loc.path) from
            getAtLoc_updateAtLoc_self doc loc remPS remPS_dict loc.path]
          unfold getAtLoc at heq
          cases hf : doc.find loc.og with
          | none => rw [hf] at heq; exact absurd heq (by simp)
          | some o =>
            rw [hf] at heq
            simp only [Option.some_bind] at heq
            show pfOpt (valAt (modValAt (rootVal o) loc.path remPS) loc.path) = true
            rw [valAt_modValAt_self loc.path (rootVal o) remPS, heq]
            show (!hasKey (removeKey es "/ProcSet") "/ProcSet") = true
            rw [hasKey_removeKey_self]
            rfl
        have hcont := sanF_res_cont fuel (updateAtLoc doc loc remPS) fhm loc
          doc' fhm' ih hloc hA1 hFH1 hD1 hrun
        refine ⟨hcont.1, fun L h => hcont.2.1 L (hB1 L h),
          fun og => (hcont.2.2.1 og).trans (hC1 og), hcont.2.2.2.1, ?_⟩
        intro loc2 h
        injection h with h1
        rw [← h1]
        exact hcont.2.2.2.2
      · rw [if_neg hps] at hrun
        have hD1 : pfLoc doc loc = true := by
          unfold pfLoc
          rw [heq]
          show (!hasKey es "/ProcSet") = true
          cases hb : hasKey es "/ProcSet" with
          | true => exact absurd hb hps
          | false => rfl
        have hcont := sanF_res_cont fuel doc fhm loc doc' fhm' ih hloc
          hwf hfh hD1 hrun
        refine ⟨hcont.1, hcont.2.1, hcont.2.2.1, hcont.2.2.2.1, ?_⟩
        intro loc2 h
        injection h with h1
        rw [← h1]
        exact hcont.2.2.2.2
    | xkeys xloc ks =>
      cases ks with
      | nil =>
        have h2 : (Except.ok (doc, fhm) : Except Unit (Doc × HashMap)) =
          .ok (doc', fhm') := hrun
        have h3 : (doc, fhm) = (doc', fhm') := by injection h2 with h4
        have hd : doc = doc' := congrArg Prod.fst h3
        have hf : fhm = fhm' := congrArg Prod.snd h3
        subst hd
        subst hf
        exact ⟨hwf, fun L h => h, fun og => rfl, hfh,
          fun loc2 h => STask.noConfusion h⟩
      | cons k ks =>
        have hxshape := hxk xloc (k :: ks) rfl
        have hvac : ∀ loc2, STask.xkeys xloc ks = STask.res loc2 →
            loc2.path = [] ∨ loc2.path = [Step.key "/Resources"] :=
          fun loc2 h => STask.noConfusion h
        have hxk2 : ∀ xl ks2, STask.xkeys xloc ks = STask.xkeys xl ks2 →
            xl.path = [] ∨ xl.path = [Step.key "/XObject"] ∨
            xl.path = [Step.key "/Resources", Step.key "/XObject"] := by
          intro xl ks2 h
          injection h with h1 h2
          rw [← h1]
          exact hxshape
        simp only [sanF] at hrun
        split at hrun
        · exact absurd hrun (by simp)
        case h_2 x xes hxes =>
        split at hrun
        · exact absurd hrun (by simp)
        case h_2 x2 stored hstored =>
        split at hrun
        · exact absurd hrun (by simp)
        · -- inline value: skip to next key
          have hpost := ih doc fhm _ doc' fhm' hvac hxk2 hwf hfh hrun
          exact ⟨hpost.1, hpost.2.1, hpost.2.2.1, hpost.2.2.2.1,
            fun loc2 h => STask.noConfusion h⟩
        · -- resolved non-stream: skip
          have hpost := ih doc fhm _ doc' fhm' hvac hxk2 hwf hfh hrun
          exact ⟨hpost.1, hpost.2.1, hpost.2.2.1, hpost.2.2.2.1,
            fun loc2 h => STask.noConfusion h⟩
        case h_4 x3 ogx sd dec raw sp hread =>
        split at hrun
        · exact absurd hrun (by simp)
        · -- no Subtype: skip
          have hpost := ih doc fhm _ doc' fhm' hvac hxk2 hwf hfh hrun
          exact ⟨hpost.1, hpost.2.1, hpost.2.2.1, hpost.2.2.2.1,
            fun loc2 h => STask.noConfusion h⟩
        case h_3 x4 sv hsv =>
        split at hrun
        case isFalse =>
          -- not a Form: skip
          have hpost := ih doc fhm _ doc' fhm' hvac hxk2 hwf hfh hrun
          exact ⟨hpost.1, hpost.2.1, hpost.2.2.1, hpost.2.2.2.1,
            fun loc2 h => STask.noConfusion h⟩
        case isTrue hform =>
        obtain ⟨hsref, hfind⟩ := readVal_ind doc stored ogx (.stream sd dec raw sp) hread
        have hisstr : isStreamAt doc ogx = true := by
          unfold isStreamAt
          rw [hfind]
        obtain ⟨ox, hox⟩ := entriesAtLoc_some_find doc xloc xes hxes
        have hdokloc : dictOKLoc doc xloc = true :=
          sanWF_dictOKLoc doc xloc.og ox hwf hox xloc.path hxshape
        have hdok : dictOK doc xes = true := by
          unfold dictOKLoc at hdokloc
          rw [hxes] at hdokloc
          exact hdokloc
        have hlkx : lookupKey xes k = some (.ref ogx) := by
          rw [hstored, hsref]
        obtain ⟨hkPS, hkRes⟩ := k_not_special doc xes k ogx hdok hlkx hisstr
        split at hrun
        · exact absurd hrun (by simp)
        case h_2 x5 doc2 fhm2 heq2 =>
        cases hlkr : lookupKey sd "/Resources" with
        | none =>
          rw [hlkr] at heq2
          have h3 : (Except.ok (doc, fhm) : Except Unit (Doc × HashMap)) =
            .ok (doc2, fhm2) := heq2
          have h4 : (doc, fhm) = (doc2, fhm2) := by injection h3 with h5
          have hd : doc = doc2 := congrArg Prod.fst h4
          have hfm : fhm = fhm2 := congrArg Prod.snd h4
          subst hd
          subst hfm
          have hOwn : ownResProcSetFree doc ogx = true := by
            unfold ownResProcSetFree
            rw [lookupRes_of_stream doc ogx sd dec raw sp hfind, hlkr]
            rfl
          have hcont := sanF_xk_cont fuel doc fhm xloc ks k ogx dec raw sp
            doc' fhm' ih hxshape hkPS hkRes hwf hfh hOwn hrun
          exact ⟨hcont.1, hcont.2.1, hcont.2.2.1, hcont.2.2.2,
            fun loc2 h => STask.noConfusion h⟩
        | some v =>
          cases v with
          | bad =>
            rw [hlkr] at heq2
            exact absurd heq2 (by simp)
          | ref ogr =>
            rw [hlkr] at heq2
            have heq3 : (if (doc.find ogr).isSome = true then
                sanF fuel doc fhm (.res ⟨ogr, []⟩)
              else (.error () : Except Unit (Doc × HashMap))) = .ok (doc2, fhm2) := heq2
            by_cases hfr : (doc.find ogr).isSome = true
            · rw [if_pos hfr] at heq3
              have hpost2 := ih doc fhm (.res ⟨ogr, []⟩) doc2 fhm2
                (fun l h => by injection h with h1; rw [← h1]; exact Or.inl rfl)
                (fun xl ks2 h => STask.noConfusion h)
                hwf hfh heq3
              have hD2 := hpost2.2.2.2.2 ⟨ogr, []⟩ rfl
              have hOwn : ownResProcSetFree doc2 ogx = true := by
                unfold ownResProcSetFree
                rw [hpost2.2.2.1 ogx, lookupRes_of_stream doc ogx sd dec raw sp hfind,
                  hlkr]
                exact hD2
              have hcont := sanF_xk_cont fuel doc2 fhm2 xloc ks k ogx dec raw sp
                doc' fhm' ih hxshape hkPS hkRes hpost2.1 hpost2.2.2.2.1 hOwn hrun
              exact ⟨hcont.1, fun L h => hcont.2.1 L (hpost2.2.1 L h),
                fun og => (hcont.2.2.1 og).trans (hpost2.2.2.1 og), hcont.2.2.2,
                fun loc2 h => STask.noConfusion h⟩
            · rw [if_neg hfr] at heq3
              exact absurd heq3 (by simp)
          | dict es2 =>
          rw [hlkr] at heq2
          have heq3 : sanF fuel doc fhm (.res ⟨ogx, [Step.key "/Resources"]⟩) =
            .ok (doc2, fhm2) := heq2
          have hpost2 := ih doc fhm (.res ⟨ogx, [Step.key "/Resources"]⟩) doc2 fhm2
            (fun l h => by injection h with h1; rw [← h1]; exact Or.inr rfl)
            (fun xl ks2 h => STask.noConfusion h)
            hwf hfh heq3
          have hD2 := hpost2.2.2.2.2 ⟨ogx, [Step.key "/Resources"]⟩ rfl
          have hOwn : ownResProcSetFree doc2 ogx = true := by
            unfold ownResProcSetFree
            rw [hpost2.2.2.1 ogx, lookupRes_of_stream doc ogx sd dec raw sp hfind,
              hlkr]
            exact hD2
          have hcont := sanF_xk_cont fuel doc2 fhm2 xloc ks k ogx dec raw sp
            doc' fhm' ih hxshape hkPS hkRes hpost2.1 hpost2.2.2.2.1 hOwn hrun
          exact ⟨hcont.1, fun L h => hcont.2.1 L (hpost2.2.1 L h),
            fun og => (hcont.2.2.1 og).trans (hpost2.2.2.1 og), hcont.2.2.2,
            fun loc2 h => STask.noConfusion h⟩
          | arr vs =>
          rw [hlkr] at heq2
          have heq3 : sanF fuel doc fhm (.res ⟨ogx, [Step.key "/Resources"]⟩) =
            .ok (doc2, fhm2) := heq2
          have hpost2 := ih doc fhm (.res ⟨ogx, [Step.key "/Resources"]⟩) doc2 fhm2
            (fun l h => by injection h with h1; rw [← h1]; exact Or.inr rfl)
            (fun xl ks2 h => STask.noConfusion h)
            hwf hfh heq3
          have hD2 := hpost2.2.2.2.2 ⟨ogx, [Step.key "/Resources"]⟩ rfl
          have hOwn : ownResProcSetFree doc2 ogx = true := by
            unfold ownResProcSetFree
            rw [hpost2.2.2.1 ogx, lookupRes_of_stream doc ogx sd dec raw sp hfind,
              hlkr]
            exact hD2
          have hcont := sanF_xk_cont fuel doc2 fhm2 xloc ks k ogx dec raw sp
            doc' fhm' ih hxshape hkPS hkRes hpost2.1 hpost2.2.2.2.1 hOwn hrun
          exact ⟨hcont.1, fun L h => hcont.2.1 L (hpost2.2.1 L h),
            fun og => (hcont.2.2.1 og).trans (hpost2.2.2.1 og), hcont.2.2.2,
            fun loc2 h => STask.noConfusion h⟩
          | name s2 =>
          rw [hlkr] at heq2
          have heq3 : sanF fuel doc fhm (.res ⟨ogx, [Step.key "/Resources"]⟩) =
            .ok (doc2, fhm2) := heq2
          have hpost2 := ih doc fhm (.res ⟨ogx, [Step.key "/Resources"]⟩) doc2 fhm2
            (fun l h => by injection h with h1; rw [← h1]; exact Or.inr rfl)
            (fun xl ks2 h => STask.noConfusion h)
            hwf hfh heq3
          have hD2 := hpost2.2.2.2.2 ⟨ogx, [Step.key "/Resources"]⟩ rfl
          have hOwn : ownResProcSetFree doc2 ogx = true := by
            unfold ownResProcSetFree
            rw [hpost2.2.2.1 ogx, lookupRes_of_stream doc ogx sd dec raw sp hfind,
              hlkr]
            exact hD2
          have hcont := sanF_xk_cont fuel doc2 fhm2 xloc ks k ogx dec raw sp
            doc' fhm' ih hxshape hkPS hkRes hpost2.1 hpost2.2.2.2.1 hOwn hrun
          exact ⟨hcont.1, fun L h => hcont.2.1 L (hpost2.2.1 L h),
            fun og => (hcont.2.2.1 og).trans (hpost2.2.2.1 og), hcont.2.2.2,
            fun loc2 h => STask.noConfusion h⟩
          | int n =>
          rw [hlkr] at heq2
          have heq3 : sanF fuel doc fhm (.res ⟨ogx, [Step.key "/Resources"]⟩) =
            .ok (doc2, fhm2) := heq2
          have hpost2 := ih doc fhm (.res ⟨ogx, [Step.key "/Resources"]⟩) doc2 fhm2
            (fun l h => by injection h with h1; rw [← h1]; exact Or.inr rfl)
            (fun xl ks2 h => STask.noConfusion h)
            hwf hfh heq3
          have hD2 := hpost2.2.2.2.2 ⟨ogx, [Step.key "/Resources"]⟩ rfl
          have hOwn : ownResProcSetFree doc2 ogx = true := by
            unfold ownResProcSetFree
            rw [hpost2.2.2.1 ogx, lookupRes_of_stream doc ogx sd dec raw sp hfind,
              hlkr]
            exact hD2
          have hcont := sanF_xk_cont fuel doc2 fhm2 xloc ks k ogx dec raw sp
            doc' fhm' ih hxshape hkPS hkRes hpost2.1 hpost2.2.2.2.1 hOwn hrun
          exact ⟨hcont.1, fun L h => hcont.2.1 L (hpost2.2.1 L h),
            fun og => (hcont.2.2.1 og).trans (hpost2.2.2.1 og), hcont.2.2.2,
            fun loc2 h => STask.noConfusion h⟩
          | null =>
          rw [hlkr] at heq2
          have heq3 : sanF fuel doc fhm (.res ⟨ogx, [Step.key "/Resources"]⟩) =
            .ok (doc2, fhm2) := heq2
          have hpost2 := ih doc fhm (.res ⟨ogx, [Step.key "/Resources"]⟩) doc2 fhm2
            (fun l h => by injection h with h1; rw [← h1]; exact Or.inr rfl)
            (fun xl ks2 h => STask.noConfusion h)
            hwf hfh heq3
          have hD2 := hpost2.2.2.2.2 ⟨ogx, [Step.key "/Resources"]⟩ rfl
          have hOwn : ownResProcSetFree doc2 ogx = true := by
            unfold ownResProcSetFree
            rw [hpost2.2.2.1 ogx, lookupRes_of_stream doc ogx sd dec raw sp hfind,
              hlkr]
            exact hD2
          have hcont := sanF_xk_cont fuel doc2 fhm2 xloc ks k ogx dec raw sp
            doc' fhm' ih hxshape hkPS hkRes hpost2.1 hpost2.2.2.2.1 hOwn hrun
          exact ⟨hcont.1, fun L h => hcont.2.1 L (hpost2.2.1 L h),
            fun og => (hcont.2.2.1 og).trans (hpost2.2.2.1 og), hcont.2.2.2,
            fun loc2 h => STask.noConfusion h⟩

theorem sanitizePage_post (doc : Doc) (fhm : HashMap) (ogp : ObjGen)
    (doc' : Doc) (fhm' : HashMap)
    (hwf : sanWellFormed doc = true) (hfh : fhmOK doc fhm = true)
    (hrun : sanitizePage doc fhm ogp = .ok (doc', fhm')) :
    sanWellFormed doc' = true ∧
    (∀ L, pfLoc doc L = true → pfLoc doc' L = true) ∧
    (∀ og, resShape (lookupRes doc' og) = resShape (lookupRes doc og)) ∧
    fhmOK doc' fhm' = true ∧
    ownResProcSetFree doc' ogp = true := by
  unfold sanitizePage at hrun
  cases hfp : doc.find ogp with
  | none =>
    rw [hfp] at hrun
    have h2 : (Except.ok (doc, fhm) : Except Unit (Doc × HashMap)) =
      .ok (doc', fhm') := hrun
    have h3 : (doc, fhm) = (doc', fhm') := by injection h2 with h4
    have hd : doc = doc' := congrArg Prod.fst h3
    have hfm : fhm = fhm' := congrArg Prod.snd h3
    subst hd
    subst hfm
    refine ⟨hwf, fun L h => h, fun og => rfl, hfh, ?_⟩
    unfold ownResProcSetFree lookupRes
    rw [hfp]
    rfl
  | some o =>
    rw [hfp] at hrun
    have hrun2 : (match rootVal o with
      | PdfVal.dict es =>
        (match lookupKey es "/Resources" with
         | none => Except.ok (doc, fhm)
         | some PdfVal.bad => Except.error ()
         | some (PdfVal.ref ogr) =>
           if (doc.find ogr).isSome then procRes (sanFuel doc) doc fhm ⟨ogr, []⟩
           else Except.error ()
         | some _ => procRes (sanFuel doc) doc fhm ⟨ogp, [Step.key "/Resources"]⟩
         : Except Unit (Doc × HashMap))
      | _ => Except.ok (doc, fhm)) = .ok (doc', fhm') := hrun
    have hlr1 : lookupRes doc ogp = (match rootVal o with
        | PdfVal.dict es => lookupKey es "/Resources"
        | _ => none) := by
      unfold lookupRes
      rw [hfp]
    cases hro : rootVal o with
    | dict es =>
      rw [hro] at hrun2 hlr1
      have hrun3 : (match lookupKey es "/Resources" with
         | none => Except.ok (doc, fhm)
         | some PdfVal.bad => Except.error ()
         | some (PdfVal.ref ogr) =>
           if (doc.find ogr).isSome then procRes (sanFuel doc) doc fhm ⟨ogr, []⟩
           else Except.error ()
         | some _ => procRes (sanFuel doc) doc fhm ⟨ogp, [Step.key "/Resources"]⟩
         : Except Unit (Doc × HashMap)) = .ok (doc', fhm') := hrun2
      have hlr2 : lookupRes doc ogp = lookupKey es "/Resources" := hlr1
      cases hlk : lookupKey es "/Resources" with
      | none =>
        rw [hlk] at hrun3 hlr2
        have h2 : (Except.ok (doc, fhm) : Except Unit (Doc × HashMap)) =
          .ok (doc', fhm') := hrun3
        have h3 : (doc, fhm) = (doc', fhm') := by injection h2 with h4
        have hd : doc = doc' := congrArg Prod.fst h3
        have hfm : fhm = fhm' := congrArg Prod.snd h3
        subst hd
        subst hfm
        refine ⟨hwf, fun L h => h, fun og => rfl, hfh, ?_⟩
        unfold ownResProcSetFree
        rw [hlr2]
        rfl
      | some v =>
        rw [hlk] at hrun3 hlr2
        cases v with
        | bad => exact absurd hrun3 (by simp)
        | ref ogr =>
          by_cases hfr : (doc.find ogr).isSome = true
          · have hrun4 : sanF (sanFuel doc) doc fhm (.res ⟨ogr, []⟩) =
              .ok (doc', fhm') := by
              have h5 : (if (doc.find ogr).isSome = true then
                  procRes (sanFuel doc) doc fhm ⟨ogr, []⟩
                else (Except.error () : Except Unit (Doc × HashMap))) =
                  .ok (doc', fhm') := hrun3
              rw [if_pos hfr] at h5
              exact h5
            have hpost := sanF_post (sanFuel doc) doc fhm (.res ⟨ogr, []⟩) doc' fhm'
              (fun l h => by injection h with h1; rw [← h1]; exact Or.inl rfl)
              (fun xl ks2 h => STask.noConfusion h)
              hwf hfh hrun4
            refine ⟨hpost.1, hpost.2.1, hpost.2.2.1, hpost.2.2.2.1, ?_⟩
            unfold ownResProcSetFree
            rw [hpost.2.2.1 ogp, hlr2]
            exact hpost.2.2.2.2 ⟨ogr, []⟩ rfl
          · have h5 : (if (doc.find ogr).isSome = true then
                procRes (sanFuel doc) doc fhm ⟨ogr, []⟩
              else (Except.error () : Except Unit (Doc × HashMap))) =
                .ok (doc', fhm') := hrun3
            rw [if_neg hfr] at h5
            exact absurd h5 (by simp)
        | dict es2 =>
          have hrun4 : sanF (sanFuel doc) doc fhm (.res ⟨ogp, [Step.key "/Resources"]⟩) =
            .ok (doc', fhm') := hrun3
          have hpost := sanF_post (sanFuel doc) doc fhm
            (.res ⟨ogp, [Step.key "/Resources"]⟩) doc' fhm'
            (fun l h => by injection h with h1; rw [← h1]; exact Or.inr rfl)
            (fun xl ks2 h => STask.noConfusion h)
            hwf hfh hrun4
          refine ⟨hpost.1, hpost.2.1, hpost.2.2.1, hpost.2.2.2.1, ?_⟩
          unfold ownResProcSetFree
          rw [hpost.2.2.1 ogp, hlr2]
          exact hpost.2.2.2.2 ⟨ogp, [Step.key "/Resources"]⟩ rfl
        | arr vs =>
          have hrun4 : sanF (sanFuel doc) doc fhm (.res ⟨ogp, [Step.key "/Resources"]⟩) =
            .ok (doc', fhm') := hrun3
          have hpost := sanF_post (sanFuel doc) doc fhm
            (.res ⟨ogp, [Step.key "/Resources"]⟩) doc' fhm'
            (fun l h => by injection h with h1; rw [← h1]; exact Or.inr rfl)
            (fun xl ks2 h => STask.noConfusion h)
            hwf hfh hrun4
          refine ⟨hpost.1, hpost.2.1, hpost.2.2.1, hpost.2.2.2.1, ?_⟩
          unfold ownResProcSetFree
          rw [hpost.2.2.1 ogp, hlr2]
          exact hpost.2.2.2.2 ⟨ogp, [Step.key "/Resources"]⟩ rfl
        | name s2 =>
          have hrun4 : sanF (sanFuel doc) doc fhm (.res ⟨ogp, [Step.key "/Resources"]⟩) =
            .ok (doc', fhm') := hrun3
          have hpost := sanF_post (sanFuel doc) doc fhm
            (.res ⟨ogp, [Step.key "/Resources"]⟩) doc' fhm'
            (fun l h => by injection h with h1; rw [← h1]; exact Or.inr rfl)
            (fun xl ks2 h => STask.noConfusion h)
            hwf hfh hrun4
          refine ⟨hpost.1, hpost.2.1, hpost.2.2.1, hpost.2.2.2.1, ?_⟩
          unfold ownResProcSetFree
          rw [hpost.2.2.1 ogp, hlr2]
          exact hpost.2.2.2.2 ⟨ogp, [Step.key "/Resources"]⟩ rfl
        | int n =>
          have hrun4 : sanF (sanFuel doc) doc fhm (.res ⟨ogp, [Step.key "/Resources"]⟩) =
            .ok (doc', fhm') := hrun3
          have hpost := sanF_post (sanFuel doc) doc fhm
            (.res ⟨ogp, [Step.key "/Resources"]⟩) doc' fhm'
            (fun l h => by injection h with h1; rw [← h1]; exact Or.inr rfl)
            (fun xl ks2 h => STask.noConfusion h)
            hwf hfh hrun4
          refine ⟨hpost.1, hpost.2.1, hpost.2.2.1, hpost.2.2.2.1, ?_⟩
          unfold ownResProcSetFree
          rw [hpost.2.2.1 ogp, hlr2]
          exact hpost.2.2.2.2 ⟨ogp, [Step.key "/Resources"]⟩ rfl
        | null =>
          have hrun4 : sanF (sanFuel doc) doc fhm (.res ⟨ogp, [Step.key "/Resources"]⟩) =
            .ok (doc', fhm') := hrun3
          have hpost := sanF_post (sanFuel doc) doc fhm
            (.res ⟨ogp, [Step.key "/Resources"]⟩) doc' fhm'
            (fun l h => by injection h with h1; rw [← h1]; exact Or.inr rfl)
            (fun xl ks2 h => STask.noConfusion h)
            hwf hfh hrun4
          refine ⟨hpost.1, hpost.2.1, hpost.2.2.1, hpost.2.2.2.1, ?_⟩
          unfold ownResProcSetFree
          rw [hpost.2.2.1 ogp, hlr2]
          exact hpost.2.2.2.2 ⟨ogp, [Step.key "/Resources"]⟩ rfl
    | ref og2 =>
      rw [hro] at hrun2 hlr1
      have h2 : (Except.ok (doc, fhm) : Except Unit (Doc × HashMap)) =
        .ok (doc', fhm') := hrun2
      have h3 : (doc, fhm) = (doc', fhm') := by injection h2 with h4
      have hd : doc = doc' := congrArg Prod.fst h3
      have hfm : fhm = fhm' := congrArg Prod.snd h3
      subst hd
      subst hfm
      refine ⟨hwf, fun L h => h, fun og => rfl, hfh, ?_⟩
      unfold ownResProcSetFree
      rw [hlr1]
      rfl
    | arr vs =>
      rw [hro] at hrun2 hlr1
      have h2 : (Except.ok (doc, fhm) : Except Unit (Doc × HashMap)) =
        .ok (doc', fhm') := hrun2
      have h3 : (doc, fhm) = (doc', fhm') := by injection h2 with h4
      have hd : doc = doc' := congrArg Prod.fst h3
      have hfm : fhm = fhm' := congrArg Prod.snd h3
      subst hd
      subst hfm
      refine ⟨hwf, fun L h => h, fun og => rfl, hfh, ?_⟩
      unfold ownResProcSetFree
      rw [hlr1]
      rfl
    | name s2 =>
      rw [hro] at hrun2 hlr1
      have h2 : (Except.ok (doc, fhm) : Except Unit (Doc × HashMap)) =
        .ok (doc', fhm') := hrun2
      have h3 : (doc, fhm) = (doc', fhm') := by injection h2 with h4
      have hd : doc = doc' := congrArg Prod.fst h3
      have hfm : fhm = fhm' := congrArg Prod.snd h3
      subst hd
      subst hfm
      refine ⟨hwf, fun L h => h, fun og => rfl, hfh, ?_⟩
      unfold ownResProcSetFree
      rw [hlr1]
      rfl
    | int n =>
      rw [hro] at hrun2 hlr1
      have h2 : (Except.ok (doc, fhm) : Except Unit (Doc × HashMap)) =
        .ok (doc', fhm') := hrun2
      have h3 : (doc, fhm) = (doc', fhm') := by injection h2 with h4
      have hd : doc = doc' := congrArg Prod.fst h3
      have hfm : fhm = fhm' := congrArg Prod.snd h3
      subst hd
      subst hfm
      refine ⟨hwf, fun L h => h, fun og => rfl, hfh, ?_⟩
      unfold ownResProcSetFree
      rw [hlr1]
      rfl
    | null =>
      rw [hro] at hrun2 hlr1
      have h2 : (Except.ok (doc, fhm) : Except Unit (Doc × HashMap)) =
        .ok (doc', fhm') := hrun2
      have h3 : (doc, fhm) = (doc', fhm') := by injection h2 with h4
      have hd : doc = doc' := congrArg Prod.fst h3
      have hfm : fhm = fhm' := congrArg Prod.snd h3
      subst hd
      subst hfm
      refine ⟨hwf, fun L h => h, fun og => rfl, hfh, ?_⟩
      unfold ownResProcSetFree
      rw [hlr1]
      rfl
    | bad =>
      rw [hro] at hrun2 hlr1
      have h2 : (Except.ok (doc, fhm) : Except Unit (Doc × HashMap)) =
        .ok (doc', fhm') := hrun2
      have h3 : (doc, fhm) = (doc', fhm') := by injection h2 with h4
      have hd : doc = doc' := congrArg Prod.fst h3
      have hfm : fhm = fhm' := congrArg Prod.snd h3
      subst hd
      subst hfm
      refine ⟨hwf, fun L h => h, fun og => rfl, hfh, ?_⟩
      unfold ownResProcSetFree
      rw [hlr1]
      rfl

theorem sanitizePages_post : ∀ (pages : List ObjGen) (doc : Doc) (fhm : HashMap)
    (doc' : Doc) (fhm' : HashMap),
    sanWellFormed doc = true → fhmOK doc fhm = true →
    sanitizePages doc fhm pages = .ok (doc', fhm') →
    sanWellFormed doc' = true ∧
    (∀ L, pfLoc doc L = true → pfLoc doc' L = true) ∧
    (∀ og, resShape (lookupRes doc' og) = resShape (lookupRes doc og)) ∧
    fhmOK doc' fhm' = true ∧
    (∀ og, og ∈ pages → ownResProcSetFree doc' og = true) := by
  intro pages
  induction pages with
  | nil =>
    intro doc fhm doc' fhm' hwf hfh hrun
    have h2 : (Except.ok (doc, fhm) : Except Unit (Doc × HashMap)) =
      .ok (doc', fhm') := hrun
    have h3 : (doc, fhm) = (doc', fhm') := by injection h2 with h4
    have hd : doc = doc' := congrArg Prod.fst h3
    have hfm : fhm = fhm' := congrArg Prod.snd h3
    subst hd
    subst hfm
    exact ⟨hwf, fun L h => h, fun og => rfl, hfh, fun og hm => absurd hm (by simp)⟩
  | cons ogp rest ihp =>
    intro doc fhm doc' fhm' hwf hfh hrun
    unfold sanitizePages at hrun
    split at hrun
    · exact absurd hrun (by simp)
    case h_2 x doc1 fhm1 heq =>
    have hpg := sanitizePage_post doc fhm ogp doc1 fhm1 hwf hfh heq
    have hrest := ihp doc1 fhm1 doc' fhm' hpg.1 hpg.2.2.2.1 hrun
    refine ⟨hrest.1, fun L h => hrest.2.1 L (hpg.2.1 L h),
      fun og => (hrest.2.2.1 og).trans (hpg.2.2.1 og), hrest.2.2.2.1, ?_⟩
    intro og hm
    rw [List.mem_cons] at hm
    cases hm with
    | inl h =>
      subst h
      exact ownRes_mono doc1 doc' hrest.2.1 hrest.2.2.1 og hpg.2.2.2.2
    | inr h => exact hrest.2.2.2.2 og h

/-- C4 (amended): under the stream-reference well-formedness hypothesis,
a successful sanitizer pass leaves every page and every form it hashed
with a ProcSet-free resources dictionary. -/
theorem c4_pages_and_hashed_forms_procset_free
    (d d' : Doc) (fhm' : HashMap)
    (hwf : sanWellFormed d = true)
    (hrun : stripAndDedup d = .ok (d', fhm')) :
    (∀ og, og ∈ d.pages → ownResProcSetFree d' og = true) ∧
    (∀ e, e ∈ fhm' → ownResProcSetFree d' e.2 = true) := by
  unfold stripAndDedup at hrun
  have hp := sanitizePages_post d.pages d [] d' fhm' hwf rfl hrun
  refine ⟨fun og hm => hp.2.2.2.2 og hm, ?_⟩
  intro e he
  have hfh := hp.2.2.2.1
  unfold fhmOK at hfh
  rw [List.all_eq_true] at hfh
  exact hfh e he

theorem c4_witness :
    sanWellFormed c4wdoc = true ∧
    ((∀ og, og ∈ c4wdoc.pages → ownResProcSetFree c4wsan og = true) ∧
     (∀ e, e ∈ c4wfhm → ownResProcSetFree c4wsan e.2 = true)) :=
  ⟨by decide,
   c4_pages_and_hashed_forms_procset_free c4wdoc c4wsan c4wfhm (by decide) (by rfl)⟩

end OptimizePdf
